import Mathlib

/-!
Verification of the DChat contact registry and discovery protocol
(`src/contact.c` of DChat-Core).

The development is a shallow embedding: C strings become `List Char`,
machine integers become `Int` (with explicit clamping / 32-bit wrapping
where the C performs an out-of-range conversion), the global configuration
`_cnf` becomes an explicit `dchat_conf_t` value threaded through every
operation, and fallible C functions returning `-1` become `Option`-valued
Lean functions.  Collaborator code that is part of the repository but not
among the given sources (`is_valid_onion`, `is_valid_port`, the constants
`ONION_ADDRLEN` and `INIT_CONTACTS`, and the PDU helper `get_content_part`)
is modelled from the specification's words; each such definition carries a
doc comment starting with `Modelled from the spec:`.
-/

namespace DChat

/-! ## Character classes and numeric helpers -/

/-- The characters `isspace` accepts in the C locale (space, tab, newline,
vertical tab, form feed, carriage return); `strtol` skips them. -/
def isSpaceC (c : Char) : Bool :=
  c = ' ' || c = '\t' || c = '\n' || c.toNat = 11 || c.toNat = 12 || c.toNat = 13

/-- Decimal digit characters, as `strtol` consumes them in base 10. -/
def isDigitC (c : Char) : Bool :=
  48 ≤ c.toNat && c.toNat ≤ 57

/-- Modelled from the spec: the fixed maximum length of a transport
address (`ONION_ADDRLEN`, the length of a fixed-format onion address:
sixteen base32 characters followed by the six characters of a dot and
the `onion` label). -/
def ONION_ADDRLEN : Nat := 22

/-- Modelled from the spec: the character set a fixed-format onion address
may use (lower-case letters, digits and the dot) — in particular no
embedded spaces or newlines. -/
def isOnionChar (c : Char) : Bool :=
  (97 ≤ c.toNat && c.toNat ≤ 122) || (48 ≤ c.toNat && c.toNat ≤ 57) || c = '.'

/-- Modelled from the spec: the onion-address validity predicate
(`is_valid_onion` of util.c, not among the sources): a fixed-format
address of exactly `ONION_ADDRLEN` characters drawn from the onion
character set. -/
def is_valid_onion (s : List Char) : Bool :=
  s.length = ONION_ADDRLEN && s.all isOnionChar

/-- Modelled from the spec: the port validity predicate (`is_valid_port`
of util.c, not among the sources): an integer in 1..65535. -/
def is_valid_port (p : Int) : Bool :=
  1 ≤ p && p ≤ 65535

/-- Fuel-driven helper for decimal printing: structural recursion on the
fuel keeps the definition kernel-reducible.  The fuel is always chosen
strictly above the number, so the `[]` base case is never reached. -/
def natToDecAux : Nat → Nat → List Char
  | 0, _ => []
  | fuel + 1, n =>
    if n < 10 then [Nat.digitChar n]
    else natToDecAux fuel (n / 10) ++ [Nat.digitChar (n % 10)]

/-- Decimal printing of a natural number, as `snprintf` with `%u`
produces it (most significant digit first, no sign, no padding). -/
def natToDec (n : Nat) : List Char :=
  natToDecAux (n + 1) n

/-- Value of a run of decimal digit characters, most significant first. -/
def decVal (l : List Char) : Nat :=
  l.foldl (fun a c => a * 10 + (c.toNat - 48)) 0

/-- Clamping to the range of a 64-bit `long`, as `strtol` saturates
out-of-range input. -/
def clampLong (x : Int) : Int :=
  max (-(2 ^ 63)) (min (2 ^ 63 - 1) x)

/-- Conversion of a `long` value to `int` by two's-complement wrapping
into the 32-bit signed range, as the cast in `string_to_contact`
performs it. -/
def int32wrap (x : Int) : Int :=
  (x + 2 ^ 31) % 2 ^ 32 - 2 ^ 31

/-- One `strtok_r` step with a single-character delimiter set: skip
leading delimiters, fail on an empty remainder, otherwise return the
maximal delimiter-free token and the remainder after the token (with the
one terminating delimiter, when present, consumed). -/
def strtok1 (s : List Char) (delim : Char) : Option (List Char × List Char) :=
  let t := s.dropWhile (fun c => c = delim)
  match t with
  | [] => none
  | _ :: _ =>
    let tok := t.takeWhile (fun c => c ≠ delim)
    match t.dropWhile (fun c => c ≠ delim) with
    | [] => some (tok, ([] : List Char))
    | _ :: r => some (tok, r)

/-- The digit-consuming tail of `strtol`: on an empty digit run the
result is `0` and the remainder the original string `s0`
(`endptr = nptr`); otherwise the signed value clamped to the `long`
range and the remainder from the first non-digit on. -/
def strtolCore (s0 : List Char) (sign : Int) (r : List Char) : Int × List Char :=
  let ds := r.takeWhile isDigitC
  if ds = [] then (0, s0)
  else (clampLong (sign * (decVal ds : Int)), r.dropWhile isDigitC)

/-- The `strtol(s, &ptr, 10)` call of `string_to_contact`: skip C
whitespace, accept one optional sign, consume a maximal run of decimal
digits. -/
def strtol10 (s : List Char) : Int × List Char :=
  match s.dropWhile isSpaceC with
  | [] => strtolCore s 1 []
  | c :: r =>
    if c = '+' then strtolCore s 1 r
    else if c = '-' then strtolCore s (-1) r
    else strtolCore s 1 (c :: r)

/-! ## The contact data model (types.h, as used by contact.c) -/

/-- One contact slot: onion address, display name, listening port,
socket descriptor (`0` means the slot is unused) and the accepted flag. -/
structure contact_t where
  onion_id : List Char
  name : List Char
  lport : Int
  fd : Int
  accepted : Bool
deriving Repr, DecidableEq

/-- The all-zero contact, as `memset(..., 0, sizeof(contact_t))`
produces it. -/
def empty_contact : contact_t :=
  { onion_id := [], name := [], lport := 0, fd := 0, accepted := false }

/-- The contact list of the global configuration: the slot array (its
length is `cl_size`) and the separately maintained counter of used
slots. -/
structure contactlist_t where
  contact : List contact_t
  used_contacts : Int
deriving Repr, DecidableEq

/-- The part of the global configuration `_cnf` that contact.c uses:
the own identity `me` and the contact list `cl`. -/
structure dchat_conf_t where
  me : contact_t
  cl : contactlist_t
deriving Repr, DecidableEq

/-- The slot count `_cnf->cl.cl_size` (the C keeps it equal to the
allocated length of the slot array). -/
def cl_size (cnf : dchat_conf_t) : Int :=
  cnf.cl.contact.length

/-! ## Wire codec (contact_to_string / string_to_contact) -/

/-- `contact_to_string` of contact.c: `NULL` (here `none`) for an
invalid address or port, otherwise the line `<address> <port>\n`
(the port printed with `%u` and cut after at most five characters by
the `port_str[5] = 0` write). -/
def contact_to_string (c : contact_t) : Option (List Char) :=
  if is_valid_onion c.onion_id then
    if is_valid_port c.lport then
      some (c.onion_id ++ ' ' :: ((natToDec c.lport.toNat).take 5 ++ ['\n']))
    else none
  else none

/-- `string_to_contact` of contact.c: split the address token with
`strtok_r(string, " ")`, the port token with `strtok_r(NULL, "\n")`,
validate the address, run `strtol` on the port token, reject leftover
characters and invalid ports, and finally write the port and the
address (truncated by `strncat` to `ONION_ADDRLEN` characters) into the
given contact. -/
def string_to_contact (c : contact_t) (s : List Char) : Option contact_t :=
  match strtok1 s ' ' with
  | none => none
  | some (onion_id, rest) =>
    match strtok1 rest '\n' with
    | none => none
    | some (port, _) =>
      if is_valid_onion onion_id then
        let p := strtol10 port
        let lport := int32wrap p.1
        if p.2 = [] then
          if is_valid_port lport then
            some { c with lport := lport, onion_id := onion_id.take ONION_ADDRLEN }
          else none
        else none
      else none

/-- Identity equality of two contacts as `find_contact` computes it:
`strcmp` of the two wire strings.  A contact whose wire string does not
exist (invalid address or port) is equal to nothing. -/
def contact_eq (a b : contact_t) : Bool :=
  match contact_to_string a, contact_to_string b with
  | some x, some y => decide (x = y)
  | _, _ => false

/-- The `strcmp` of check_duplicates, reduced to its sign: `-1`, `0` or
`1` by byte-wise comparison, the shorter string ranking below at a
common prefix. -/
def strcmpM : List Char → List Char → Int
  | [], [] => 0
  | [], _ :: _ => -1
  | _ :: _, [] => 1
  | a :: x, b :: y =>
    if a.toNat < b.toNat then -1
    else if b.toNat < a.toNat then 1
    else strcmpM x y

/-! ## Contact store operations -/

/-- The scanning part of `find_contact`'s loop: the first index (counted
from `i`) whose slot is confirmed (`lport ≠ 0`) and identity-equal to
the candidate. -/
def scanIdx (cand : contact_t) : List contact_t → Nat → Option Nat
  | [], _ => none
  | c :: rest, i =>
    if c.lport ≠ 0 ∧ contact_eq cand c = true then some i
    else scanIdx cand rest (i + 1)

/-- `find_contact` of contact.c.  `-2` for an out-of-bounds start index;
otherwise the loop first compares the candidate against `me` (and, on a
match, returns the loop variable, which the self iteration has just set
to `begin - 1`), then scans the slots from `begin` upward, skipping
unconfirmed slots. -/
def find_contact (cnf : dchat_conf_t) (contact : contact_t) (begin : Int) : Int :=
  if begin < 0 ∨ cl_size cnf ≤ begin then -2
  else if cnf.me.lport ≠ 0 ∧ contact_eq contact cnf.me = true then begin - 1
  else
    match scanIdx contact (cnf.cl.contact.drop begin.toNat) begin.toNat with
    | some i => (i : Int)
    | none => -2

/-- `check_duplicates` of contact.c: find the first and second occurrence
of the contact at slot `n`, classify them by the `accepted` flag of the
first occurrence, and break the tie by comparing the own onion address
(then the own listening port) against the duplicate's. -/
def check_duplicates (cnf : dchat_conf_t) (n : Int) : Int :=
  let cn := cnf.cl.contact.getD n.toNat empty_contact
  let fst_oc := find_contact cnf cn 0
  if fst_oc = -1 then n
  else if fst_oc = -2 then -1
  else
    let sec_oc := find_contact cnf cn (fst_oc + 1)
    if sec_oc = -2 then -1
    else
      let temp := cnf.cl.contact.getD fst_oc.toNat empty_contact
      let connect_contact := if temp.accepted then sec_oc else fst_oc
      let accept_contact := if temp.accepted then fst_oc else sec_oc
      let ret := strcmpM cnf.me.onion_id cn.onion_id
      if 0 < ret then connect_contact
      else if ret < 0 then accept_contact
      else if cn.lport < cnf.me.lport then connect_contact
      else if cnf.me.lport < cn.lport then accept_contact
      else accept_contact

/-- `realloc_contactlist` of contact.c: reject a size below 1 or below
the used counter, otherwise replace the slot array by the occupied slots
in their original order followed by zeroed slots up to the new size. -/
def realloc_contactlist (cnf : dchat_conf_t) (newsize : Int) : Option dchat_conf_t :=
  if newsize < 1 ∨ newsize < cnf.cl.used_contacts then none
  else
    let occ := cnf.cl.contact.filter (fun c => c.fd ≠ 0)
    some { cnf with
           cl := { contact := occ ++ List.replicate (newsize.toNat - occ.length) empty_contact,
                   used_contacts := cnf.cl.used_contacts } }

/-- The first slot index whose descriptor is `0`, as `add_contact`'s
scan finds it. -/
def firstEmptyIdx : List contact_t → Option Nat
  | [] => none
  | c :: rest =>
    if c.fd = 0 then some 0
    else (firstEmptyIdx rest).map (fun i => i + 1)

/-- `add_contact` of contact.c, with the fixed increment `INIT_CONTACTS`
passed as the argument `inc` (the constant lives in a header that is not
among the sources; the spec only calls it the fixed increment).  A full
list grows by `inc` first; then the first empty slot receives the
descriptor and the used counter grows.  When no empty slot exists the C
loop runs off the end and returns `cl_size` without storing anything. -/
def add_contact (inc : Int) (cnf : dchat_conf_t) (fd : Int) : Option (dchat_conf_t × Int) :=
  let grown :=
    if cnf.cl.used_contacts = cl_size cnf then realloc_contactlist cnf (cl_size cnf + inc)
    else some cnf
  match grown with
  | none => none
  | some cnf1 =>
    match firstEmptyIdx cnf1.cl.contact with
    | some i =>
      let slot := cnf1.cl.contact.getD i empty_contact
      some ({ cnf1 with
              cl := { contact := cnf1.cl.contact.set i { slot with fd := fd },
                      used_contacts := cnf1.cl.used_contacts + 1 } }, (i : Int))
    | none => some (cnf1, cl_size cnf1)

/-- `del_contact` of contact.c: out-of-bounds indices fail, an empty
slot is a successful no-op, otherwise the slot is zeroed and the used
counter decremented; when the counter has fallen to exactly
`cl_size - inc` and is still nonzero the list shrinks by `inc`. -/
def del_contact (inc : Int) (cnf : dchat_conf_t) (n : Int) : Option dchat_conf_t :=
  if n < 0 ∨ cl_size cnf ≤ n then none
  else if (cnf.cl.contact.getD n.toNat empty_contact).fd = 0 then some cnf
  else
    let cnf1 : dchat_conf_t :=
      { cnf with
        cl := { contact := cnf.cl.contact.set n.toNat empty_contact,
                used_contacts := cnf.cl.used_contacts - 1 } }
    if cnf1.cl.used_contacts = cl_size cnf1 - inc ∧ cnf1.cl.used_contacts ≠ 0 then
      realloc_contactlist cnf1 (cl_size cnf1 - inc)
    else some cnf1

/-- A sequence of `add_contact` calls, one per descriptor, failing as
soon as one call fails. -/
def add_seq (inc : Int) (cnf : dchat_conf_t) : List Int → Option dchat_conf_t
  | [] => some cnf
  | fd :: rest =>
    match add_contact inc cnf fd with
    | none => none
    | some (cnf1, _) => add_seq inc cnf1 rest

/-! ## Discovery protocol (receive_contacts) -/

/-- Modelled from the spec: the content splitter `get_content_part` of
decoder.c (an external collaborator, `extract_line(message, start_offset)
-> (line, next_offset) | error`): the line from `offset` up to and
including the next delimiter, together with the offset of that
delimiter (`receive_contacts` increments the returned offset to reach
the next line); an error when no delimiter occurs before the end of the
content. -/
def get_content_part (content : List Char) (offset : Nat) (delim : Char) :
    Option (List Char × Nat) :=
  let seg := content.drop offset
  let pre := seg.takeWhile (fun c => c ≠ delim)
  if offset + pre.length < content.length then some (pre ++ [delim], offset + pre.length)
  else none

/-- The loop of `receive_contacts`, with an explicit fuel so that the
C loop's possible divergence is observable: `none` means the fuel ran
out before the loop finished.  `conn` stands for the external
collaborator `handle_local_conn_request` (its return value only feeds
the error flag; the contact list is not changed by this model of one
message's parse).  On a decode failure the C `continue` skips the
`line_end++`, so the next iteration starts again at the offset of the
failed line's delimiter. -/
def receive_loop (cnf : dchat_conf_t) (conn : List Char → Int → Int)
    (content : List Char) :
    Nat → Nat → Int → Int → Int → Option Int
  | 0, _, _, _, _ => none
  | fuel + 1, line_end, ret, new_contacts, known_contacts =>
    if line_end < content.length then
      match get_content_part content line_end '\n' with
      | none => some (-1)
      | some (line, le) =>
        match string_to_contact empty_contact line with
        | none => receive_loop cnf conn content fuel le (-1) new_contacts known_contacts
        | some contact =>
          if find_contact cnf contact 0 = -2 then
            let r := conn contact.onion_id contact.lport
            receive_loop cnf conn content fuel (le + 1)
              (if r = -1 then -1 else ret) (new_contacts + 1) known_contacts
          else
            receive_loop cnf conn content fuel (le + 1) ret new_contacts (known_contacts + 1)
    else some (if ret ≠ -1 then new_contacts else -1)

/-- `receive_contacts` of contact.c, run with the given fuel: the loop
starts at offset `0` with a clean error flag and zero counters. -/
def receive_contacts (cnf : dchat_conf_t) (conn : List Char → Int → Int)
    (content : List Char) (fuel : Nat) : Option Int :=
  receive_loop cnf conn content fuel 0 0 0 0

/-! ## Concrete example data (used to instantiate the theorems below) -/

/-- A syntactically valid onion address. -/
def onionA : List Char := "aaaaaaaaaaaaaaaa.onion".toList

/-- A second valid onion address, lexically above `onionA`. -/
def onionB : List Char := "bbbbbbbbbbbbbbbb.onion".toList

/-- A contact with the given identity, descriptor and accepted flag. -/
def mkContact (o : List Char) (p fd : Int) (acc : Bool) : contact_t :=
  { onion_id := o, name := [], lport := p, fd := fd, accepted := acc }

/-- A slot holding only a freshly installed descriptor, as `add_contact`
creates it. -/
def mkFd (f : Int) : contact_t :=
  { empty_contact with fd := f }

/-- A store owned by identity B that holds a duplicate pair for identity
A: the dialed entry (accepted = false) at slot 0, the accepted entry at
slot 1. -/
def cnfDupAB : dchat_conf_t :=
  { me := mkContact onionB 4000 0 false,
    cl := { contact := [mkContact onionA 80 3 false, mkContact onionA 80 4 true],
            used_contacts := 2 } }

/-- The mirror image of `cnfDupAB` on peer A's side: a store owned by
identity A holding a duplicate pair for identity B with the accepted
flags of the two links exchanged. -/
def cnfDupBA : dchat_conf_t :=
  { me := mkContact onionA 80 0 false,
    cl := { contact := [mkContact onionB 4000 5 true, mkContact onionB 4000 6 false],
            used_contacts := 2 } }

/-- A store whose own identity coincides with the duplicate pair's
identity (address and port both equal), dialed entry first. -/
def cnfSelfDup : dchat_conf_t :=
  { me := mkContact onionA 80 0 false,
    cl := { contact := [mkContact onionA 80 3 false, mkContact onionA 80 4 true],
            used_contacts := 2 } }

/-- `cnfSelfDup` with the two duplicate entries in the opposite order. -/
def cnfSelfDupSwap : dchat_conf_t :=
  { me := mkContact onionA 80 0 false,
    cl := { contact := [mkContact onionA 80 4 true, mkContact onionA 80 3 false],
            used_contacts := 2 } }

/-- A store with a confirmed self identity and two empty slots, used to
exercise `find_contact` with a nonzero start index. -/
def cnfFindBug : dchat_conf_t :=
  { me := mkContact onionA 80 0 false,
    cl := { contact := [empty_contact, empty_contact], used_contacts := 0 } }

/-- A full two-slot store with two distinct confirmed contacts. -/
def cnfTwo : dchat_conf_t :=
  { me := mkContact onionB 4000 0 false,
    cl := { contact := [mkContact onionA 80 1 false, mkContact onionA 81 2 false],
            used_contacts := 2 } }

/-- An empty store of the given capacity, as the process starts with. -/
def fresh_store (k : Nat) (me : contact_t) : dchat_conf_t :=
  { me := me, cl := { contact := List.replicate k empty_contact, used_contacts := 0 } }

/-- A discovery-message body whose first line cannot be decoded, followed
by a well-formed contact line. -/
def contentBad : List Char := 'x' :: '\n' :: (onionA ++ (' ' :: '8' :: '0' :: ['\n']))

/-- A contact line whose port token carries a leading plus sign. -/
def linePlus : List Char := onionA ++ (' ' :: '+' :: '8' :: '0' :: ['\n'])

/-- A well-formed two-line discovery body: `onionA 9001` and
`onionB 9002`. -/
def contentTwo : List Char :=
  onionA ++ (' ' :: '9' :: '0' :: '0' :: '1' :: '\n'
    :: (onionB ++ (' ' :: '9' :: '0' :: '0' :: '2' :: ['\n'])))

/-! ## List scanning helpers -/

theorem takeWhile_of_all {p : Char → Bool} :
    ∀ l : List Char, (∀ c ∈ l, p c = true) → l.takeWhile p = l := by
  intro l h
  induction l with
  | nil => rfl
  | cons c r ih =>
    rw [List.takeWhile_cons_of_pos (h c (List.mem_cons_self c r))]
    rw [ih (fun x hx => h x (List.mem_cons_of_mem c hx))]

theorem dropWhile_of_all {p : Char → Bool} :
    ∀ l : List Char, (∀ c ∈ l, p c = true) → l.dropWhile p = [] := by
  intro l h
  induction l with
  | nil => rfl
  | cons c r ih =>
    rw [List.dropWhile_cons_of_pos (h c (List.mem_cons_self c r))]
    exact ih (fun x hx => h x (List.mem_cons_of_mem c hx))

theorem takeWhile_append_stop {p : Char → Bool} :
    ∀ (A : List Char) (d : Char) (R : List Char), (∀ c ∈ A, p c = true) → p d = false →
      (A ++ d :: R).takeWhile p = A ∧ (A ++ d :: R).dropWhile p = d :: R := by
  intro A d R hA hd
  induction A with
  | nil => simp [List.takeWhile, List.dropWhile, hd]
  | cons a t ih =>
    have ha : p a = true := hA a (by simp)
    have iht := ih (fun x hx => hA x (by simp [hx]))
    simp [List.takeWhile, List.dropWhile, ha, iht.1, iht.2]

theorem dropWhile_of_head_false {p : Char → Bool} (c : Char) (r : List Char)
    (h : p c = false) : (c :: r).dropWhile p = c :: r := by
  simp [List.dropWhile, h]

/-! ## Decimal digit lemmas -/

theorem natToDecAux_fuel : ∀ (f1 f2 n : Nat), n < f1 → n < f2 →
    natToDecAux f1 n = natToDecAux f2 n := by
  intro f1
  induction f1 with
  | zero => omega
  | succ f1 ih =>
    intro f2 n h1 h2
    cases f2 with
    | zero => omega
    | succ f2 =>
      simp only [natToDecAux]
      by_cases h : n < 10
      · rw [if_pos h, if_pos h]
      · rw [if_neg h, if_neg h, ih f2 (n / 10) (by omega) (by omega)]

theorem natToDec_eq (n : Nat) : natToDec n
    = if n < 10 then [Nat.digitChar n] else natToDec (n / 10) ++ [Nat.digitChar (n % 10)] := by
  by_cases h : n < 10
  · rw [if_pos h]
    unfold natToDec
    simp only [natToDecAux]
    rw [if_pos h]
  · rw [if_neg h]
    have hstep : natToDecAux (n + 1) n = natToDecAux n (n / 10) ++ [Nat.digitChar (n % 10)] := by
      simp only [natToDecAux]
      rw [if_neg h]
    show natToDecAux (n + 1) n = natToDecAux (n / 10 + 1) (n / 10) ++ [Nat.digitChar (n % 10)]
    rw [hstep, natToDecAux_fuel n (n / 10 + 1) (n / 10) (by omega) (by omega)]

theorem digitChar_isDigit : ∀ d : Nat, d < 10 → isDigitC (Nat.digitChar d) = true := by
  decide

theorem digitChar_val : ∀ d : Nat, d < 10 → (Nat.digitChar d).toNat - 48 = d := by
  decide

theorem natToDec_digits : ∀ n : Nat, ∀ c ∈ natToDec n, isDigitC c = true := by
  intro n
  induction n using Nat.strong_induction_on with
  | _ n ih =>
    intro c hc
    rw [natToDec_eq] at hc
    by_cases h : n < 10
    · simp [h] at hc
      subst hc
      exact digitChar_isDigit n h
    · simp [h] at hc
      rcases hc with hc | hc
      · exact ih (n / 10) (Nat.div_lt_self (by omega) (by omega)) c hc
      · subst hc
        exact digitChar_isDigit (n % 10) (Nat.mod_lt n (by omega))

theorem natToDec_ne_nil (n : Nat) : natToDec n ≠ [] := by
  rw [natToDec_eq]
  by_cases h : n < 10 <;> simp [h]

theorem decVal_append_digit (A : List Char) (b : Char) :
    decVal (A ++ [b]) = decVal A * 10 + (b.toNat - 48) := by
  unfold decVal
  rw [List.foldl_append]
  rfl

theorem decVal_natToDec : ∀ n : Nat, decVal (natToDec n) = n := by
  intro n
  induction n using Nat.strong_induction_on with
  | _ n ih =>
    rw [natToDec_eq]
    by_cases h : n < 10
    · rw [if_pos h]
      have : decVal [Nat.digitChar n] = (Nat.digitChar n).toNat - 48 := by
        unfold decVal
        simp [List.foldl]
      rw [this, digitChar_val n h]
    · rw [if_neg h, decVal_append_digit,
        ih (n / 10) (Nat.div_lt_self (by omega) (by omega)),
        digitChar_val (n % 10) (Nat.mod_lt n (by omega))]
      omega

theorem natToDec_length : ∀ (k n : Nat), 1 ≤ k → n < 10 ^ k → (natToDec n).length ≤ k := by
  intro k
  induction k with
  | zero => omega
  | succ k ih =>
    intro n _ hn
    rw [natToDec_eq]
    by_cases h : n < 10
    · rw [if_pos h]
      simp
    · rw [if_neg h]
      have hk : 1 ≤ k := by
        by_contra hk0
        have hk00 : k = 0 := by omega
        subst hk00
        have h10 : (10 : Nat) ^ 1 = 10 := by norm_num
        omega
      have hdiv : n / 10 < 10 ^ k := by
        apply Nat.div_lt_of_lt_mul
        calc n < 10 ^ (k + 1) := hn
          _ = 10 * 10 ^ k := by ring
      have := ih (n / 10) hk hdiv
      simp only [List.length_append, List.length_cons, List.length_nil]
      omega

/-! ## Character class facts -/

theorem onionChar_toNat {c : Char} (h : isOnionChar c = true) :
    c.toNat = 46 ∨ (97 ≤ c.toNat ∧ c.toNat ≤ 122) ∨ (48 ≤ c.toNat ∧ c.toNat ≤ 57) := by
  simp only [isOnionChar, Bool.or_eq_true, Bool.and_eq_true, decide_eq_true_eq] at h
  rcases h with (h | h) | h
  · exact Or.inr (Or.inl ⟨h.1, h.2⟩)
  · exact Or.inr (Or.inr ⟨h.1, h.2⟩)
  · subst h
    exact Or.inl rfl

theorem onionChar_props {c : Char} (h : isOnionChar c = true) :
    c ≠ ' ' ∧ c ≠ '\n' ∧ isSpaceC c = false ∧ c ≠ '+' ∧ c ≠ '-' := by
  have ht := onionChar_toNat h
  have hsp : (' ' : Char).toNat = 32 := rfl
  have hnl : ('\n' : Char).toNat = 10 := rfl
  have htb : ('\t' : Char).toNat = 9 := rfl
  have hpl : ('+' : Char).toNat = 43 := rfl
  have hmn : ('-' : Char).toNat = 45 := rfl
  refine ⟨?_, ?_, ?_, ?_, ?_⟩
  · intro hc
    rw [hc] at ht
    omega
  · intro hc
    rw [hc] at ht
    omega
  · by_contra hb
    have hb1 : isSpaceC c = true := by
      cases hx : isSpaceC c
      · exact absurd hx hb
      · rfl
    simp only [isSpaceC, Bool.or_eq_true, decide_eq_true_eq] at hb1
    rcases hb1 with ((((h1 | h1) | h1) | h1) | h1) | h1
    · rw [h1] at ht
      omega
    · rw [h1] at ht
      omega
    · rw [h1] at ht
      omega
    all_goals omega
  · intro hc
    rw [hc] at ht
    omega
  · intro hc
    rw [hc] at ht
    omega

theorem digit_toNat {c : Char} (h : isDigitC c = true) :
    48 ≤ c.toNat ∧ c.toNat ≤ 57 := by
  simp only [isDigitC, Bool.and_eq_true, decide_eq_true_eq] at h
  exact h

theorem digit_props {c : Char} (h : isDigitC c = true) :
    isSpaceC c = false ∧ c ≠ '+' ∧ c ≠ '-' ∧ c ≠ ' ' ∧ c ≠ '\n' := by
  have ht := digit_toNat h
  have hsp : (' ' : Char).toNat = 32 := rfl
  have hnl : ('\n' : Char).toNat = 10 := rfl
  have htb : ('\t' : Char).toNat = 9 := rfl
  have hpl : ('+' : Char).toNat = 43 := rfl
  have hmn : ('-' : Char).toNat = 45 := rfl
  refine ⟨?_, ?_, ?_, ?_, ?_⟩
  · by_contra hb
    have hb1 : isSpaceC c = true := by
      cases hx : isSpaceC c
      · exact absurd hx hb
      · rfl
    simp only [isSpaceC, Bool.or_eq_true, decide_eq_true_eq] at hb1
    rcases hb1 with ((((h1 | h1) | h1) | h1) | h1) | h1
    · rw [h1] at ht
      omega
    · rw [h1] at ht
      omega
    · rw [h1] at ht
      omega
    all_goals omega
  · intro hc
    rw [hc] at ht
    omega
  · intro hc
    rw [hc] at ht
    omega
  · intro hc
    rw [hc] at ht
    omega
  · intro hc
    rw [hc] at ht
    omega

theorem char_toNat_inj {a b : Char} (h : a.toNat = b.toNat) : a = b := by
  rw [← Char.ofNat_toNat a, ← Char.ofNat_toNat b, h]

/-! ## strtok and strtol lemmas -/

theorem strtok1_split (A : List Char) (d : Char) (R : List Char)
    (hA : ∀ c ∈ A, c ≠ d) (hAne : A ≠ []) :
    strtok1 (A ++ d :: R) d = some (A, R) := by
  have hdrop1 : (A ++ d :: R).dropWhile (fun c => c = d) = A ++ d :: R := by
    cases A with
    | nil => exact absurd rfl hAne
    | cons a t =>
      apply dropWhile_of_head_false
      exact decide_eq_false (hA a (List.mem_cons_self a t))
  have hstop := takeWhile_append_stop A d R
    (fun c hc => decide_eq_true (hA c hc)) (by simp)
  cases A with
  | nil => exact absurd rfl hAne
  | cons a t =>
    rw [List.cons_append] at hdrop1 hstop
    simp only [strtok1, List.cons_append, hdrop1, hstop.1, hstop.2]

theorem strtok1_last (A : List Char) (d : Char)
    (hA : ∀ c ∈ A, c ≠ d) (hAne : A ≠ []) :
    strtok1 A d = some (A, []) := by
  have hdrop1 : A.dropWhile (fun c => c = d) = A := by
    cases A with
    | nil => exact absurd rfl hAne
    | cons a t =>
      apply dropWhile_of_head_false
      exact decide_eq_false (hA a (List.mem_cons_self a t))
  have htake : A.takeWhile (fun c => c ≠ d) = A :=
    takeWhile_of_all A (fun c hc => decide_eq_true (hA c hc))
  have hdrop2 : A.dropWhile (fun c => c ≠ d) = [] :=
    dropWhile_of_all A (fun c hc => decide_eq_true (hA c hc))
  cases A with
  | nil => exact absurd rfl hAne
  | cons a t =>
    simp only [strtok1, hdrop1, htake, hdrop2]

theorem strtol10_all_digits (ds : List Char)
    (h : ∀ c ∈ ds, isDigitC c = true) (hne : ds ≠ []) :
    strtol10 ds = (clampLong (decVal ds), []) := by
  cases ds with
  | nil => exact absurd rfl hne
  | cons c r =>
    have hc := h c (List.mem_cons_self c r)
    have hp := digit_props hc
    have hdw : (c :: r).dropWhile isSpaceC = c :: r :=
      dropWhile_of_head_false c r hp.1
    have htake : (c :: r).takeWhile isDigitC = c :: r := takeWhile_of_all _ h
    have hdrop : (c :: r).dropWhile isDigitC = [] := dropWhile_of_all _ h
    simp only [strtol10, hdw]
    rw [if_neg hp.2.1, if_neg hp.2.2.1]
    simp only [strtolCore, htake, hdrop]
    rw [if_neg (by simp)]
    simp

theorem strtol10_digits_garbage (D : List Char) (g : Char) (tail : List Char)
    (hD : ∀ c ∈ D, isDigitC c = true) (hDne : D ≠ []) (hg : isDigitC g = false) :
    (strtol10 (D ++ g :: tail)).2 = g :: tail := by
  cases D with
  | nil => exact absurd rfl hDne
  | cons c r =>
    have hc := hD c (List.mem_cons_self c r)
    have hp := digit_props hc
    have hdw : ((c :: r) ++ g :: tail).dropWhile isSpaceC = (c :: r) ++ g :: tail :=
      dropWhile_of_head_false c (r ++ g :: tail) hp.1
    have hstop := takeWhile_append_stop (c :: r) g tail hD hg
    rw [List.cons_append] at hdw hstop
    simp only [strtol10, List.cons_append, hdw]
    rw [if_neg hp.2.1, if_neg hp.2.2.1]
    simp only [strtolCore, hstop.1, hstop.2]
    rw [if_neg (by simp)]

theorem strtol10_no_digit (c : Char) (r : List Char) (hc1 : isDigitC c = false)
    (hc2 : isSpaceC c = false) (hc3 : c ≠ '+') (hc4 : c ≠ '-') :
    strtol10 (c :: r) = (0, c :: r) := by
  have hdw : (c :: r).dropWhile isSpaceC = c :: r := dropWhile_of_head_false c r hc2
  have htake : (c :: r).takeWhile isDigitC = [] := by
    rw [List.takeWhile_cons_of_neg]
    simp [hc1]
  simp only [strtol10, hdw]
  rw [if_neg hc3, if_neg hc4]
  simp only [strtolCore, htake]
  simp

theorem clampLong_small {v : Int} (h0 : 0 ≤ v) (h : v < 2 ^ 31) : clampLong v = v := by
  have h63 : (2 : Int) ^ 63 = 9223372036854775808 := by norm_num
  have h31 : (2 : Int) ^ 31 = 2147483648 := by norm_num
  unfold clampLong
  rw [min_eq_right (by omega), max_eq_right (by omega)]

theorem int32wrap_small {v : Int} (h0 : 0 ≤ v) (h : v < 2 ^ 31) : int32wrap v = v := by
  have h31 : (2 : Int) ^ 31 = 2147483648 := by norm_num
  have h32 : (2 : Int) ^ 32 = 4294967296 := by norm_num
  unfold int32wrap
  rw [h31, h32]
  omega

/-! ## Wire codec lemmas -/

theorem valid_port_bounds {p : Int} (h : is_valid_port p = true) : 1 ≤ p ∧ p ≤ 65535 := by
  simp only [is_valid_port, Bool.and_eq_true, decide_eq_true_eq] at h
  exact h

theorem natToDec_take5 {p : Int} (h : is_valid_port p = true) :
    (natToDec p.toNat).take 5 = natToDec p.toNat := by
  have hb := valid_port_bounds h
  apply List.take_of_length_le
  apply natToDec_length 5 p.toNat (by omega)
  have h5 : (10 : Nat) ^ 5 = 100000 := by norm_num
  omega

theorem contact_to_string_some {c : contact_t} {w : List Char}
    (h : contact_to_string c = some w) :
    is_valid_onion c.onion_id = true ∧ is_valid_port c.lport = true ∧
      w = c.onion_id ++ ' ' :: (natToDec c.lport.toNat ++ ['\n']) := by
  unfold contact_to_string at h
  by_cases h1 : is_valid_onion c.onion_id = true
  · rw [if_pos h1] at h
    by_cases h2 : is_valid_port c.lport = true
    · rw [if_pos h2] at h
      refine ⟨h1, h2, ?_⟩
      rw [natToDec_take5 h2] at h
      exact (Option.some_inj.mp h).symm
    · rw [if_neg h2] at h
      exact absurd h (by simp)
  · rw [if_neg h1] at h
    exact absurd h (by simp)

theorem contact_to_string_of_valid {c : contact_t}
    (h1 : is_valid_onion c.onion_id = true) (h2 : is_valid_port c.lport = true) :
    contact_to_string c = some (c.onion_id ++ ' ' :: (natToDec c.lport.toNat ++ ['\n'])) := by
  unfold contact_to_string
  rw [if_pos h1, if_pos h2, natToDec_take5 h2]

theorem valid_onion_all {s : List Char} (h : is_valid_onion s = true) :
    ∀ c ∈ s, isOnionChar c = true := by
  simp only [is_valid_onion, Bool.and_eq_true, List.all_eq_true] at h
  exact fun c hc => h.2 c hc

theorem valid_onion_ne_nil {s : List Char} (h : is_valid_onion s = true) : s ≠ [] := by
  simp only [is_valid_onion, Bool.and_eq_true, decide_eq_true_eq] at h
  intro hnil
  rw [hnil] at h
  simp [ONION_ADDRLEN] at h

theorem wire_inj {a b : contact_t} {w : List Char}
    (ha : contact_to_string a = some w) (hb : contact_to_string b = some w) :
    a.onion_id = b.onion_id ∧ a.lport = b.lport := by
  obtain ⟨hva, hpa, hwa⟩ := contact_to_string_some ha
  obtain ⟨hvb, hpb, hwb⟩ := contact_to_string_some hb
  have hstopA := takeWhile_append_stop a.onion_id ' ' (natToDec a.lport.toNat ++ ['\n'])
    (fun c hc => decide_eq_true (onionChar_props (valid_onion_all hva c hc)).1) (by simp)
  have hstopB := takeWhile_append_stop b.onion_id ' ' (natToDec b.lport.toNat ++ ['\n'])
    (fun c hc => decide_eq_true (onionChar_props (valid_onion_all hvb c hc)).1) (by simp)
  have heq : a.onion_id ++ ' ' :: (natToDec a.lport.toNat ++ ['\n'])
      = b.onion_id ++ ' ' :: (natToDec b.lport.toNat ++ ['\n']) := by
    rw [← hwa, ← hwb]
  have honion : a.onion_id = b.onion_id := by
    have := hstopA.1
    rw [heq, hstopB.1] at this
    exact this.symm
  refine ⟨honion, ?_⟩
  have htail : natToDec a.lport.toNat ++ ['\n'] = natToDec b.lport.toNat ++ ['\n'] := by
    rw [honion] at heq
    have := List.append_cancel_left heq
    exact List.tail_eq_of_cons_eq this
  have hdec : natToDec a.lport.toNat = natToDec b.lport.toNat :=
    List.append_cancel_right htail
  have hval : a.lport.toNat = b.lport.toNat := by
    rw [← decVal_natToDec a.lport.toNat, ← decVal_natToDec b.lport.toNat, hdec]
  have hba := valid_port_bounds hpa
  have hbb := valid_port_bounds hpb
  omega

theorem contact_eq_fields {a b : contact_t} (h : contact_eq a b = true) :
    a.onion_id = b.onion_id ∧ a.lport = b.lport := by
  unfold contact_eq at h
  cases ha : contact_to_string a with
  | none => rw [ha] at h; simp at h
  | some x =>
    cases hb : contact_to_string b with
    | none => rw [ha, hb] at h; simp at h
    | some y =>
      rw [ha, hb] at h
      simp only [decide_eq_true_eq] at h
      subst h
      exact wire_inj ha hb

theorem contact_eq_of_fields {a b : contact_t}
    (ho : a.onion_id = b.onion_id) (hp : a.lport = b.lport)
    (hv : is_valid_onion b.onion_id = true) (hvp : is_valid_port b.lport = true) :
    contact_eq a b = true := by
  have ha : contact_to_string a = some (b.onion_id ++ ' ' :: (natToDec b.lport.toNat ++ ['\n'])) := by
    have := contact_to_string_of_valid (c := a) (ho ▸ hv) (hp ▸ hvp)
    rw [this, ho, hp]
  have hb := contact_to_string_of_valid hv hvp
  unfold contact_eq
  rw [ha, hb]
  simp

/-! ## strcmp lemmas -/

theorem strcmpM_self : ∀ l : List Char, strcmpM l l = 0 := by
  intro l
  induction l with
  | nil => rfl
  | cons c r ih =>
    simp only [strcmpM]
    rw [if_neg (by omega), if_neg (by omega)]
    exact ih

theorem strcmpM_eq_zero : ∀ a b : List Char, strcmpM a b = 0 → a = b := by
  intro a
  induction a with
  | nil =>
    intro b h
    cases b with
    | nil => rfl
    | cons y ys => simp [strcmpM] at h
  | cons x xs ih =>
    intro b h
    cases b with
    | nil => simp [strcmpM] at h
    | cons y ys =>
      simp only [strcmpM] at h
      by_cases h1 : x.toNat < y.toNat
      · rw [if_pos h1] at h
        omega
      · rw [if_neg h1] at h
        by_cases h2 : y.toNat < x.toNat
        · rw [if_pos h2] at h
          omega
        · rw [if_neg h2] at h
          have hx : x = y := char_toNat_inj (by omega)
          rw [hx, ih ys h]

theorem strcmpM_vals : ∀ a b : List Char, strcmpM a b = -1 ∨ strcmpM a b = 0 ∨ strcmpM a b = 1 := by
  intro a
  induction a with
  | nil =>
    intro b
    cases b with
    | nil => simp [strcmpM]
    | cons y ys => simp [strcmpM]
  | cons x xs ih =>
    intro b
    cases b with
    | nil => simp [strcmpM]
    | cons y ys =>
      simp only [strcmpM]
      by_cases h1 : x.toNat < y.toNat
      · rw [if_pos h1]
        simp
      · rw [if_neg h1]
        by_cases h2 : y.toNat < x.toNat
        · rw [if_pos h2]
          simp
        · rw [if_neg h2]
          exact ih ys

theorem strcmpM_antisym : ∀ a b : List Char, strcmpM b a = -strcmpM a b := by
  intro a
  induction a with
  | nil =>
    intro b
    cases b with
    | nil => rfl
    | cons y ys => rfl
  | cons x xs ih =>
    intro b
    cases b with
    | nil => rfl
    | cons y ys =>
      simp only [strcmpM]
      by_cases h1 : x.toNat < y.toNat
      · rw [if_neg (show ¬ y.toNat < x.toNat by omega), if_pos h1, if_pos h1]
        norm_num
      · by_cases h2 : y.toNat < x.toNat
        · rw [if_pos h2, if_neg h1, if_pos h2]
        · rw [if_neg h2, if_neg h1, if_neg h1, if_neg h2]
          exact ih ys

/-! ## Round trip (claim C2) -/

theorem valid_onion_take {s : List Char} (h : is_valid_onion s = true) :
    s.take ONION_ADDRLEN = s := by
  apply List.take_of_length_le
  simp only [is_valid_onion, Bool.and_eq_true, decide_eq_true_eq] at h
  omega

theorem port_int_eq {p : Int} (hp : is_valid_port p = true) : ((p.toNat : Int)) = p := by
  have := valid_port_bounds hp
  omega

/-- C2: every contact with a valid onion address and a port in 1..65535
serializes to the line `<address> <port>\n`, and parsing that line back
succeeds and reproduces the address and port exactly (the connection
handle and the other fields of the target struct are untouched). -/
theorem contact_roundtrip (c : contact_t)
    (hv : is_valid_onion c.onion_id = true) (hp : is_valid_port c.lport = true) :
    contact_to_string c = some (c.onion_id ++ ' ' :: (natToDec c.lport.toNat ++ ['\n'])) ∧
    ∀ c0 : contact_t,
      string_to_contact c0 (c.onion_id ++ ' ' :: (natToDec c.lport.toNat ++ ['\n']))
        = some { c0 with onion_id := c.onion_id, lport := c.lport } := by
  have hbounds := valid_port_bounds hp
  refine ⟨contact_to_string_of_valid hv hp, ?_⟩
  intro c0
  have htok1 : strtok1 (c.onion_id ++ ' ' :: (natToDec c.lport.toNat ++ ['\n'])) ' '
      = some (c.onion_id, natToDec c.lport.toNat ++ ['\n']) :=
    strtok1_split c.onion_id ' ' (natToDec c.lport.toNat ++ ['\n'])
      (fun x hx => (onionChar_props (valid_onion_all hv x hx)).1)
      (valid_onion_ne_nil hv)
  have htok2 : strtok1 (natToDec c.lport.toNat ++ ['\n']) '\n'
      = some (natToDec c.lport.toNat, []) := by
    have := strtok1_split (natToDec c.lport.toNat) '\n' []
      (fun x hx => (digit_props (natToDec_digits c.lport.toNat x hx)).2.2.2.2)
      (natToDec_ne_nil c.lport.toNat)
    simpa using this
  have hstrtol : strtol10 (natToDec c.lport.toNat) = (clampLong (decVal (natToDec c.lport.toNat)), []) :=
    strtol10_all_digits (natToDec c.lport.toNat) (natToDec_digits c.lport.toNat)
      (natToDec_ne_nil c.lport.toNat)
  have hdecv : decVal (natToDec c.lport.toNat) = c.lport.toNat := decVal_natToDec c.lport.toNat
  have h31 : (2 : Int) ^ 31 = 2147483648 := by norm_num
  have hclamp : clampLong ((c.lport.toNat : Int)) = ((c.lport.toNat : Int)) :=
    clampLong_small (by omega) (by omega)
  have hwrap : int32wrap ((c.lport.toNat : Int)) = ((c.lport.toNat : Int)) :=
    int32wrap_small (by omega) (by omega)
  simp only [string_to_contact, htok1, htok2]
  rw [if_pos hv]
  simp only [hstrtol, hdecv, hclamp, hwrap]
  rw [if_pos trivial, port_int_eq hp, valid_onion_take hv, if_pos hp]

/-! ## Resize and removal (claims C6, C7, C8) -/

theorem getD_set_self (l : List contact_t) (i : Nat) (x : contact_t) (h : i < l.length) :
    (l.set i x).getD i empty_contact = x := by
  rw [List.getD_eq_getElem?_getD, List.getElem?_set_self h]
  rfl

/-- C7: `realloc_contactlist` rejects a new size below 1 or below the
used counter; the C returns `-1` before touching the store, which the
pure model renders as `none` with no successor state. -/
theorem realloc_bounds (cnf : dchat_conf_t) (n : Int)
    (h : n < 1 ∨ n < cnf.cl.used_contacts) :
    realloc_contactlist cnf n = none := by
  unfold realloc_contactlist
  rw [if_pos h]

/-- Witness for C7: resizing a two-contact store to 0 and to 1 both
fail. -/
theorem realloc_bounds_witness :
    realloc_contactlist cnfTwo 0 = none ∧ realloc_contactlist cnfTwo 1 = none :=
  ⟨realloc_bounds cnfTwo 0 (Or.inl (by norm_num)),
   realloc_bounds cnfTwo 1 (Or.inr (by decide))⟩

/-- C6: under the store invariant (the used counter equals the number of
occupied slots), a resize to any `n ≥ 1` with `n ≥ used` succeeds and
the new slot array is exactly the occupied slots compacted to the front
in their original relative order, padded with zeroed slots to capacity
`n`; no occupied slot is lost and the used counter and self identity are
unchanged. -/
theorem realloc_no_loss (cnf : dchat_conf_t) (n : Int)
    (hinv : cnf.cl.used_contacts = ((cnf.cl.contact.filter (fun c => c.fd ≠ 0)).length : Int))
    (h1 : 1 ≤ n) (h2 : cnf.cl.used_contacts ≤ n) :
    ∃ cnf2, realloc_contactlist cnf n = some cnf2 ∧
      cnf2.cl.contact = cnf.cl.contact.filter (fun c => c.fd ≠ 0)
        ++ List.replicate (n.toNat - (cnf.cl.contact.filter (fun c => c.fd ≠ 0)).length)
            empty_contact ∧
      cl_size cnf2 = n ∧
      cnf2.cl.used_contacts = cnf.cl.used_contacts ∧
      cnf2.me = cnf.me := by
  have hcond : ¬ (n < 1 ∨ n < cnf.cl.used_contacts) := by omega
  unfold realloc_contactlist
  rw [if_neg hcond]
  refine ⟨_, rfl, rfl, ?_, rfl, rfl⟩
  simp only [cl_size, List.length_append, List.length_replicate]
  omega

/-- Witness for C6: growing the full two-contact store to three slots
keeps both contacts in front and adds one zeroed slot. -/
theorem realloc_no_loss_witness :
    ∃ cnf2, realloc_contactlist cnfTwo 3 = some cnf2 ∧
      cnf2.cl.contact = cnfTwo.cl.contact.filter (fun c => c.fd ≠ 0)
        ++ List.replicate ((3 : Int).toNat - (cnfTwo.cl.contact.filter (fun c => c.fd ≠ 0)).length)
            empty_contact ∧
      cl_size cnf2 = 3 ∧
      cnf2.cl.used_contacts = cnfTwo.cl.used_contacts ∧
      cnf2.me = cnfTwo.me :=
  realloc_no_loss cnfTwo 3 (by decide) (by decide) (by decide)

/-- C8 counterexample: with increment 1 on a full two-slot store, the
first `del_contact 0` triggers the hysteresis shrink, which compacts the
surviving contact into slot 0; the second `del_contact 0` therefore
succeeds again on an occupied slot and decrements the used counter a
second time (2 to 1 to 0), contrary to the claim that the second call is
a no-op on an empty slot. -/
theorem del_twice_counterexample :
    (Option.map (fun s => s.cl.used_contacts) (del_contact 1 cnfTwo 0) = some 1) ∧
    (Option.map (fun s => s.cl.used_contacts)
      (Option.bind (del_contact 1 cnfTwo 0) (fun s => del_contact 1 s 0)) = some 0) := by
  decide

/-- C8 (amended): provided the first removal does not trigger the
hysteresis shrink (the decremented counter differs from
`capacity - increment`, or is zero), removing a valid occupied index
zeroes the slot and decrements the used counter by exactly one, and the
second removal of the same index is a successful no-op: it returns the
same store and does not decrement again. -/
theorem del_contact_idempotent (inc : Int) (cnf : dchat_conf_t) (n : Int)
    (hn0 : 0 ≤ n) (hns : n < cl_size cnf)
    (hocc : ¬ (cnf.cl.contact.getD n.toNat empty_contact).fd = 0)
    (hnoshrink : ¬ (cnf.cl.used_contacts - 1 = cl_size cnf - inc ∧
      cnf.cl.used_contacts - 1 ≠ 0)) :
    ∃ cnf1, del_contact inc cnf n = some cnf1 ∧
      cnf1.cl.contact = cnf.cl.contact.set n.toNat empty_contact ∧
      cnf1.cl.used_contacts = cnf.cl.used_contacts - 1 ∧
      del_contact inc cnf1 n = some cnf1 := by
  have hcond : ¬ (n < 0 ∨ cl_size cnf ≤ n) := by omega
  have hlen : ((cnf.cl.contact.set n.toNat empty_contact).length : Int)
      = cl_size cnf := by
    simp [cl_size]
  have hnn : n.toNat < cnf.cl.contact.length := by
    simp only [cl_size] at hns
    omega
  refine ⟨dchat_conf_t.mk cnf.me
    (contactlist_t.mk (cnf.cl.contact.set n.toNat empty_contact)
      (cnf.cl.used_contacts - 1)), ?_, rfl, rfl, ?_⟩
  · unfold del_contact
    rw [if_neg hcond, if_neg hocc]
    rw [if_neg (by simpa only [cl_size, List.length_set] using hnoshrink)]
  · unfold del_contact
    rw [if_neg (by simpa only [cl_size, List.length_set] using hcond)]
    rw [if_pos (show ((cnf.cl.contact.set n.toNat empty_contact).getD n.toNat
      empty_contact).fd = 0 by rw [getD_set_self _ _ _ hnn]; rfl)]

/-- Witness for C8: a three-slot store with one occupied slot and
increment 1; deleting index 0 twice returns the same one-short store
both times. -/
theorem del_contact_idempotent_witness :
    ∃ cnf1, del_contact 1
        { me := empty_contact,
          cl := { contact := [mkFd 9, empty_contact, empty_contact], used_contacts := 1 } } 0
        = some cnf1 ∧
      cnf1.cl.contact
        = (([mkFd 9, empty_contact, empty_contact] : List contact_t).set 0 empty_contact) ∧
      cnf1.cl.used_contacts = 0 ∧
      del_contact 1 cnf1 0 = some cnf1 :=
  del_contact_idempotent 1
    { me := empty_contact,
      cl := { contact := [mkFd 9, empty_contact, empty_contact], used_contacts := 1 } } 0
    (by decide) (by decide) (by decide) (by decide)

/-- Witness for C2: the round trip at the concrete contact
`(aaaaaaaaaaaaaaaa.onion, 9001)`. -/
theorem contact_roundtrip_witness :
    contact_to_string (mkContact onionA 9001 7 false)
        = some (onionA ++ ' ' :: (natToDec 9001 ++ ['\n'])) ∧
    string_to_contact empty_contact (onionA ++ ' ' :: (natToDec 9001 ++ ['\n']))
        = some (mkContact onionA 9001 0 false) := by
  have h := contact_roundtrip (mkContact onionA 9001 7 false) (by decide) (by decide)
  exact ⟨h.1, h.2 empty_contact⟩

/-! ## The find_contact self-check (claim C3) -/

/-- C3, evaluated at the failing input: with a confirmed valid self
identity and start index 1 (in bounds for the two-slot store), a lookup
of a candidate identity-equal to the self identity returns `begin - 1
= 0` — a non-negative store index — because the self iteration of the
loop has already overwritten the loop variable with `begin - 1` when it
returns; the function's own documentation promises `-1` here. -/
theorem find_contact_self_bug :
    find_contact cnfFindBug cnfFindBug.me 1 = 0 := by
  decide

/-! ## Rejection of malformed contact lines (claim C5) -/

/-- C5 counterexample: the line `aaaaaaaaaaaaaaaa.onion +80\n` has a
non-numeric port token (`+80` is not a run of decimal digits), yet
`string_to_contact` accepts it with port 80, because `strtol` consumes
the sign. -/
theorem string_to_contact_plus_counterexample :
    string_to_contact empty_contact linePlus = some (mkContact onionA 80 0 false) := by
  decide

/-- C5 (amended): `string_to_contact` fails on every line without a
space character; on every line whose address token fails the onion
predicate; on every all-digit port token whose value is 0 or lies
strictly between 65535 and `2^31` (larger values can wrap into range
through the int cast); on every port token that continues with a
non-digit after a nonempty digit run (trailing garbage); and on every
port token that starts with a character that is neither a digit, C
whitespace, nor a sign.  (Port tokens with leading whitespace or a
sign that `strtol` accepts, such as `+80`, are not rejected.) -/
theorem string_to_contact_rejects :
    (∀ (s : List Char) (c0 : contact_t), (' ' ∉ s) → string_to_contact c0 s = none) ∧
    (∀ (s : List Char) (c0 : contact_t) (A rest : List Char),
      strtok1 s ' ' = some (A, rest) → is_valid_onion A = false →
      string_to_contact c0 s = none) ∧
    (∀ (s : List Char) (c0 : contact_t) (A rest T r2 : List Char),
      strtok1 s ' ' = some (A, rest) → strtok1 rest '\n' = some (T, r2) →
      T ≠ [] → (∀ c ∈ T, isDigitC c = true) →
      (decVal T = 0 ∨ (65535 < decVal T ∧ ((decVal T : Int)) < 2 ^ 31)) →
      string_to_contact c0 s = none) ∧
    (∀ (s : List Char) (c0 : contact_t) (A rest : List Char) (D : List Char) (g : Char)
      (tail r2 : List Char),
      strtok1 s ' ' = some (A, rest) → strtok1 rest '\n' = some (D ++ g :: tail, r2) →
      D ≠ [] → (∀ c ∈ D, isDigitC c = true) → isDigitC g = false →
      string_to_contact c0 s = none) ∧
    (∀ (s : List Char) (c0 : contact_t) (A rest : List Char) (g : Char) (tail r2 : List Char),
      strtok1 s ' ' = some (A, rest) → strtok1 rest '\n' = some (g :: tail, r2) →
      isDigitC g = false → isSpaceC g = false → g ≠ '+' → g ≠ '-' →
      string_to_contact c0 s = none) := by
  refine ⟨?_, ?_, ?_, ?_, ?_⟩
  · intro s c0 hsp
    cases s with
    | nil => rfl
    | cons c r =>
      have htok : strtok1 (c :: r) ' ' = some (c :: r, []) :=
        strtok1_last (c :: r) ' ' (fun x hx he => hsp (he ▸ hx)) (by simp)
      simp only [string_to_contact, htok]
      rfl
  · intro s c0 A rest h1 hA
    cases hp : strtok1 rest '\n' with
    | none => simp only [string_to_contact, h1, hp]
    | some pr =>
      obtain ⟨port, r2⟩ := pr
      simp only [string_to_contact, h1, hp]
      rw [if_neg (by rw [hA]; simp)]
  · intro s c0 A rest T r2 h1 h2 hTne hdig hbad
    have hstrtol : strtol10 T = (clampLong (decVal T), []) :=
      strtol10_all_digits T hdig hTne
    have h31 : (2 : Int) ^ 31 = 2147483648 := by norm_num
    have h63 : (2 : Int) ^ 63 = 9223372036854775808 := by norm_num
    have hvbound : ((decVal T : Int)) < 2 ^ 31 := by
      rcases hbad with h0 | hlarge
      · rw [h0]
        omega
      · exact hlarge.2
    have hclamp : clampLong ((decVal T : Int)) = ((decVal T : Int)) :=
      clampLong_small (by omega) hvbound
    have hwrap : int32wrap ((decVal T : Int)) = ((decVal T : Int)) :=
      int32wrap_small (by omega) hvbound
    have hvport : is_valid_port ((decVal T : Int)) = false := by
      simp only [is_valid_port, Bool.and_eq_false_iff, decide_eq_false_iff_not]
      rcases hbad with h0 | hlarge
      · left
        omega
      · right
        have := hlarge.1
        omega
    by_cases hva : is_valid_onion A = true
    · simp only [string_to_contact, h1, h2]
      rw [if_pos hva]
      simp only [hstrtol, hclamp, hwrap]
      rw [if_pos trivial, if_neg (by rw [hvport]; simp)]
    · simp only [string_to_contact, h1, h2]
      rw [if_neg hva]
  · intro s c0 A rest D g tail r2 h1 h2 hDne hdig hg
    have hsnd : (strtol10 (D ++ g :: tail)).2 = g :: tail :=
      strtol10_digits_garbage D g tail hdig hDne hg
    by_cases hva : is_valid_onion A = true
    · simp only [string_to_contact, h1, h2]
      rw [if_pos hva]
      simp [hsnd]
    · simp only [string_to_contact, h1, h2]
      rw [if_neg hva]
  · intro s c0 A rest g tail r2 h1 h2 hg hgs hgp hgm
    have hres : strtol10 (g :: tail) = (0, g :: tail) :=
      strtol10_no_digit g tail hg hgs hgp hgm
    by_cases hva : is_valid_onion A = true
    · simp only [string_to_contact, h1, h2]
      rw [if_pos hva]
      simp [hres]
    · simp only [string_to_contact, h1, h2]
      rw [if_neg hva]

/-- Witness for C5 (amended): one concrete rejected line for each of the
five failure classes. -/
theorem string_to_contact_rejects_witness :
    string_to_contact empty_contact ('a' :: 'b' :: ['\n']) = none ∧
    string_to_contact empty_contact ('a' :: 'b' :: ' ' :: '8' :: ['\n']) = none ∧
    string_to_contact empty_contact (onionA ++ ' ' :: '0' :: ['\n']) = none ∧
    string_to_contact empty_contact (onionA ++ ' ' :: '8' :: '0' :: 'x' :: ['\n']) = none ∧
    string_to_contact empty_contact (onionA ++ ' ' :: 'x' :: ['\n']) = none := by
  refine ⟨?_, ?_, ?_, ?_, ?_⟩
  · exact string_to_contact_rejects.1 _ _ (by decide)
  · exact string_to_contact_rejects.2.1 _ _ ('a' :: ['b']) ('8' :: ['\n'])
      (by decide) (by decide)
  · exact string_to_contact_rejects.2.2.1 _ _ onionA ('0' :: ['\n']) ['0'] []
      (by decide) (by decide) (by decide) (by decide) (Or.inl (by decide))
  · exact string_to_contact_rejects.2.2.2.1 _ _ onionA ('8' :: '0' :: 'x' :: ['\n'])
      ('8' :: ['0']) 'x' [] [] (by decide) (by decide) (by decide) (by decide) (by decide)
  · exact string_to_contact_rejects.2.2.2.2 _ _ onionA ('x' :: ['\n']) 'x' [] []
      (by decide) (by decide) (by decide) (by decide) (by decide) (by decide)

/-! ## find_contact characterization (claims C1, C4) -/

theorem getD_drop (l : List contact_t) (b m : Nat) :
    (l.drop b).getD m empty_contact = l.getD (b + m) empty_contact := by
  rw [List.getD_eq_getElem?_getD, List.getD_eq_getElem?_getD, List.getElem?_drop]

theorem scanIdx_first (cand : contact_t) :
    ∀ (l : List contact_t) (i k : Nat), k < l.length →
      ((l.getD k empty_contact).lport ≠ 0 ∧
        contact_eq cand (l.getD k empty_contact) = true) →
      (∀ m, m < k → ¬ ((l.getD m empty_contact).lport ≠ 0 ∧
        contact_eq cand (l.getD m empty_contact) = true)) →
      scanIdx cand l i = some (i + k) := by
  intro l
  induction l with
  | nil =>
    intro i k hk
    simp at hk
  | cons c rest ih =>
    intro i k hk hmatch hbefore
    by_cases hc : c.lport ≠ 0 ∧ contact_eq cand c = true
    · have hk0 : k = 0 := by
        by_contra hne
        exact hbefore 0 (by omega) (by simpa using hc)
      subst hk0
      simp [scanIdx, hc]
    · have hk0 : k ≠ 0 := by
        intro h0
        subst h0
        exact hc (by simpa using hmatch)
      obtain ⟨k1, rfl⟩ : ∃ k1, k = k1 + 1 := ⟨k - 1, by omega⟩
      simp only [scanIdx]
      rw [if_neg hc]
      rw [ih (i + 1) k1 (by simpa using hk) (by simpa using hmatch)
        (fun m hm => by simpa using hbefore (m + 1) (by omega))]
      congr 1
      omega

theorem find_contact_eq (cnf : dchat_conf_t) (cand : contact_t) (b j : Nat)
    (hb : b < cnf.cl.contact.length)
    (hself : ¬ (cnf.me.lport ≠ 0 ∧ contact_eq cand cnf.me = true))
    (hbj : b ≤ j) (hjl : j < cnf.cl.contact.length)
    (hmatch : (cnf.cl.contact.getD j empty_contact).lport ≠ 0 ∧
      contact_eq cand (cnf.cl.contact.getD j empty_contact) = true)
    (hbefore : ∀ m, b ≤ m → m < j → ¬ ((cnf.cl.contact.getD m empty_contact).lport ≠ 0 ∧
      contact_eq cand (cnf.cl.contact.getD m empty_contact) = true)) :
    find_contact cnf cand (b : Int) = (j : Int) := by
  have hscan : scanIdx cand (cnf.cl.contact.drop b) b = some (b + (j - b)) := by
    apply scanIdx_first
    · simp only [List.length_drop]
      omega
    · rw [getD_drop]
      have : b + (j - b) = j := by omega
      rw [this]
      exact hmatch
    · intro m hm
      rw [getD_drop]
      exact hbefore (b + m) (by omega) (by omega)
  have hbnd : ¬ ((b : Int) < 0 ∨ cl_size cnf ≤ (b : Int)) := by
    simp only [cl_size]
    omega
  unfold find_contact
  rw [if_neg hbnd, if_neg hself]
  have htn : ((b : Int)).toNat = b := by omega
  rw [htn, hscan]
  have : b + (j - b) = j := by omega
  rw [this]

theorem find_two (cnf : dchat_conf_t) (cand : contact_t) (i1 i2 : Nat)
    (h12 : i1 < i2) (h2l : i2 < cnf.cl.contact.length)
    (hexact : ∀ j, j < cnf.cl.contact.length →
      (((cnf.cl.contact.getD j empty_contact).lport ≠ 0 ∧
        contact_eq cand (cnf.cl.contact.getD j empty_contact) = true)
       ↔ (j = i1 ∨ j = i2)))
    (hself : ¬ (cnf.me.lport ≠ 0 ∧ contact_eq cand cnf.me = true)) :
    find_contact cnf cand 0 = (i1 : Int) ∧
      find_contact cnf cand ((i1 : Int) + 1) = (i2 : Int) := by
  constructor
  · have := find_contact_eq cnf cand 0 i1 (by omega) hself (by omega) (by omega)
      ((hexact i1 (by omega)).mpr (Or.inl rfl))
      (fun m _ hm => by
        intro hP
        rcases (hexact m (by omega)).mp hP with h | h <;> omega)
    simpa using this
  · have := find_contact_eq cnf cand (i1 + 1) i2 (by omega) hself (by omega) (by omega)
      ((hexact i2 (by omega)).mpr (Or.inr rfl))
      (fun m hm1 hm2 => by
        intro hP
        rcases (hexact m (by omega)).mp hP with h | h <;> omega)
    have hc : ((i1 : Int) + 1) = ((i1 + 1 : Nat) : Int) := by
      push_cast
      ring
    rw [hc, this]

theorem check_duplicates_branches (cnf : dchat_conf_t) (n i1 i2 : Nat)
    (h12 : i1 < i2) (h2l : i2 < cnf.cl.contact.length)
    (hexact : ∀ j, j < cnf.cl.contact.length →
      (((cnf.cl.contact.getD j empty_contact).lport ≠ 0 ∧
        contact_eq (cnf.cl.contact.getD n empty_contact)
          (cnf.cl.contact.getD j empty_contact) = true)
       ↔ (j = i1 ∨ j = i2)))
    (hself : ¬ (cnf.me.lport ≠ 0 ∧
      contact_eq (cnf.cl.contact.getD n empty_contact) cnf.me = true)) :
    check_duplicates cnf (n : Int) =
      (if 0 < strcmpM cnf.me.onion_id (cnf.cl.contact.getD n empty_contact).onion_id then
        (if (cnf.cl.contact.getD i1 empty_contact).accepted then (i2 : Int) else (i1 : Int))
       else if strcmpM cnf.me.onion_id (cnf.cl.contact.getD n empty_contact).onion_id < 0 then
        (if (cnf.cl.contact.getD i1 empty_contact).accepted then (i1 : Int) else (i2 : Int))
       else if (cnf.cl.contact.getD n empty_contact).lport < cnf.me.lport then
        (if (cnf.cl.contact.getD i1 empty_contact).accepted then (i2 : Int) else (i1 : Int))
       else if cnf.me.lport < (cnf.cl.contact.getD n empty_contact).lport then
        (if (cnf.cl.contact.getD i1 empty_contact).accepted then (i1 : Int) else (i2 : Int))
       else
        (if (cnf.cl.contact.getD i1 empty_contact).accepted then (i1 : Int) else (i2 : Int))) := by
  have hfind := find_two cnf (cnf.cl.contact.getD n empty_contact) i1 i2 h12 h2l hexact hself
  have hc1 : ¬ ((i1 : Int) = -1) := by omega
  have hc2 : ¬ ((i1 : Int) = -2) := by omega
  have hc3 : ¬ ((i2 : Int) = -2) := by omega
  simp only [check_duplicates, Int.toNat_natCast, hfind.1, hfind.2]
  rw [if_neg hc1, if_neg hc2, if_neg hc3]

/-- C1 (amended): in a store whose slot `n` occurs at exactly the two
confirmed indices `i1 < i2`, these carrying the same valid address and
port with opposite accepted flags, `check_duplicates n` returns the
connect-side index (the entry with accepted = false) when the own onion
address compares greater than the duplicate's, the accept-side index
when it compares smaller, the connect-side index at equal addresses and
greater own port, the accept-side index at equal addresses and smaller
own port — and, when address and port are both equal, `n` itself: the
self-check fires first (the original claim's accept-side default in
this final case does not match the code). -/
theorem check_duplicates_tiebreak (cnf : dchat_conf_t) (n i1 i2 : Nat)
    (h12 : i1 < i2) (h2l : i2 < cnf.cl.contact.length)
    (hn : n = i1 ∨ n = i2)
    (hval : is_valid_onion (cnf.cl.contact.getD i1 empty_contact).onion_id = true)
    (hvp : is_valid_port (cnf.cl.contact.getD i1 empty_contact).lport = true)
    (ha2 : (cnf.cl.contact.getD i2 empty_contact).onion_id
      = (cnf.cl.contact.getD i1 empty_contact).onion_id)
    (hp2 : (cnf.cl.contact.getD i2 empty_contact).lport
      = (cnf.cl.contact.getD i1 empty_contact).lport)
    (hexact : ∀ j, j < cnf.cl.contact.length →
      (((cnf.cl.contact.getD j empty_contact).lport ≠ 0 ∧
        contact_eq (cnf.cl.contact.getD n empty_contact)
          (cnf.cl.contact.getD j empty_contact) = true)
       ↔ (j = i1 ∨ j = i2))) :
    (strcmpM cnf.me.onion_id (cnf.cl.contact.getD i1 empty_contact).onion_id = 1 →
      check_duplicates cnf (n : Int)
        = (if (cnf.cl.contact.getD i1 empty_contact).accepted then (i2 : Int) else (i1 : Int))) ∧
    (strcmpM cnf.me.onion_id (cnf.cl.contact.getD i1 empty_contact).onion_id = -1 →
      check_duplicates cnf (n : Int)
        = (if (cnf.cl.contact.getD i1 empty_contact).accepted then (i1 : Int) else (i2 : Int))) ∧
    (strcmpM cnf.me.onion_id (cnf.cl.contact.getD i1 empty_contact).onion_id = 0 →
      (cnf.cl.contact.getD i1 empty_contact).lport < cnf.me.lport →
      check_duplicates cnf (n : Int)
        = (if (cnf.cl.contact.getD i1 empty_contact).accepted then (i2 : Int) else (i1 : Int))) ∧
    (strcmpM cnf.me.onion_id (cnf.cl.contact.getD i1 empty_contact).onion_id = 0 →
      cnf.me.lport < (cnf.cl.contact.getD i1 empty_contact).lport →
      check_duplicates cnf (n : Int)
        = (if (cnf.cl.contact.getD i1 empty_contact).accepted then (i1 : Int) else (i2 : Int))) ∧
    (strcmpM cnf.me.onion_id (cnf.cl.contact.getD i1 empty_contact).onion_id = 0 →
      cnf.me.lport = (cnf.cl.contact.getD i1 empty_contact).lport →
      check_duplicates cnf (n : Int) = (n : Int)) := by
  have hcano : (cnf.cl.contact.getD n empty_contact).onion_id
      = (cnf.cl.contact.getD i1 empty_contact).onion_id := by
    rcases hn with rfl | rfl
    · rfl
    · exact ha2
  have hcanp : (cnf.cl.contact.getD n empty_contact).lport
      = (cnf.cl.contact.getD i1 empty_contact).lport := by
    rcases hn with rfl | rfl
    · rfl
    · exact hp2
  refine ⟨?_, ?_, ?_, ?_, ?_⟩
  · intro hs
    have hself : ¬ (cnf.me.lport ≠ 0 ∧
        contact_eq (cnf.cl.contact.getD n empty_contact) cnf.me = true) := by
      rintro ⟨_, he⟩
      have hf := contact_eq_fields he
      rw [← hf.1, hcano, strcmpM_self] at hs
      omega
    rw [check_duplicates_branches cnf n i1 i2 h12 h2l hexact hself, hcano, hs]
    rw [if_pos (by omega)]
  · intro hs
    have hself : ¬ (cnf.me.lport ≠ 0 ∧
        contact_eq (cnf.cl.contact.getD n empty_contact) cnf.me = true) := by
      rintro ⟨_, he⟩
      have hf := contact_eq_fields he
      rw [← hf.1, hcano, strcmpM_self] at hs
      omega
    rw [check_duplicates_branches cnf n i1 i2 h12 h2l hexact hself, hcano, hs]
    rw [if_neg (by omega), if_pos (by omega)]
  · intro hs hp
    have hself : ¬ (cnf.me.lport ≠ 0 ∧
        contact_eq (cnf.cl.contact.getD n empty_contact) cnf.me = true) := by
      rintro ⟨_, he⟩
      have hf := contact_eq_fields he
      rw [← hf.2, hcanp] at hp
      omega
    rw [check_duplicates_branches cnf n i1 i2 h12 h2l hexact hself, hcano, hcanp, hs]
    rw [if_neg (by omega), if_neg (by omega), if_pos hp]
  · intro hs hp
    have hself : ¬ (cnf.me.lport ≠ 0 ∧
        contact_eq (cnf.cl.contact.getD n empty_contact) cnf.me = true) := by
      rintro ⟨_, he⟩
      have hf := contact_eq_fields he
      rw [← hf.2, hcanp] at hp
      omega
    rw [check_duplicates_branches cnf n i1 i2 h12 h2l hexact hself, hcano, hcanp, hs]
    rw [if_neg (by omega), if_neg (by omega), if_neg (by omega), if_pos hp]
  · intro hs hp
    have honion : cnf.me.onion_id = (cnf.cl.contact.getD i1 empty_contact).onion_id :=
      strcmpM_eq_zero _ _ hs
    have hq : contact_eq (cnf.cl.contact.getD n empty_contact) cnf.me = true := by
      apply contact_eq_of_fields
      · rw [hcano, honion]
      · rw [hcanp, hp]
      · rw [honion]
        exact hval
      · rw [hp]
        exact hvp
    have hbound := valid_port_bounds hvp
    have hml : cnf.me.lport ≠ 0 := by omega
    have hfind0 : find_contact cnf (cnf.cl.contact.getD n empty_contact) 0 = -1 := by
      unfold find_contact
      rw [if_neg (by simp only [cl_size]; omega), if_pos ⟨hml, hq⟩]
      norm_num
    simp only [check_duplicates, Int.toNat_natCast, hfind0]
    rw [if_pos trivial]

/-- Witness for C1: in the store `cnfDupAB` (own identity B, duplicate
pair for identity A at slots 0 and 1, connect side at slot 0), the own
address compares greater, so `check_duplicates 0` evicts the connect
side at slot 0. -/
theorem check_duplicates_tiebreak_witness :
    check_duplicates cnfDupAB 0 = 0 := by
  have h := check_duplicates_tiebreak cnfDupAB 0 0 1 (by decide) (by decide)
    (Or.inl rfl) (by decide) (by decide) (by decide) (by decide) (by decide)
  exact h.1 (by decide)

/-- C1 counterexample: when the own identity equals the duplicate's
identity (address and port both equal), the claim demands the
accept-side index (slot 1 in `cnfSelfDup`), but `check_duplicates 0`
returns 0 — the queried slot, which is the connect side (accepted =
false) — because the self-check fires before the tie-break is
reached. -/
theorem check_duplicates_equal_counterexample :
    check_duplicates cnfSelfDup 0 = 0 ∧
    (cnfSelfDup.cl.contact.getD 0 empty_contact).accepted = false ∧
    (cnfSelfDup.cl.contact.getD 1 empty_contact).accepted = true := by
  decide

theorem flag_connect (cnf : dchat_conf_t) (i1 i2 : Nat)
    (hacc : (cnf.cl.contact.getD i1 empty_contact).accepted
      = !(cnf.cl.contact.getD i2 empty_contact).accepted) :
    (cnf.cl.contact.getD
      (if (cnf.cl.contact.getD i1 empty_contact).accepted then (i2 : Int) else (i1 : Int)).toNat
      empty_contact).accepted = false := by
  by_cases hd : (cnf.cl.contact.getD i1 empty_contact).accepted = true
  · rw [if_pos hd, Int.toNat_natCast]
    rw [hd] at hacc
    cases hx : (cnf.cl.contact.getD i2 empty_contact).accepted
    · rfl
    · rw [hx] at hacc
      simp at hacc
  · rw [if_neg hd, Int.toNat_natCast]
    simpa using hd

theorem flag_accept (cnf : dchat_conf_t) (i1 i2 : Nat)
    (hacc : (cnf.cl.contact.getD i1 empty_contact).accepted
      = !(cnf.cl.contact.getD i2 empty_contact).accepted) :
    (cnf.cl.contact.getD
      (if (cnf.cl.contact.getD i1 empty_contact).accepted then (i1 : Int) else (i2 : Int)).toNat
      empty_contact).accepted = true := by
  by_cases hd : (cnf.cl.contact.getD i1 empty_contact).accepted = true
  · rw [if_pos hd, Int.toNat_natCast]
    exact hd
  · rw [if_neg hd, Int.toNat_natCast]
    rw [Bool.not_eq_true] at hd
    rw [hd] at hacc
    cases hx : (cnf.cl.contact.getD i2 empty_contact).accepted
    · rw [hx] at hacc
      simp at hacc
    · rfl

theorem check_duplicates_flag (cnf : dchat_conf_t) (n i1 i2 : Nat)
    (h12 : i1 < i2) (h2l : i2 < cnf.cl.contact.length)
    (hn : n = i1 ∨ n = i2)
    (ha2 : (cnf.cl.contact.getD i2 empty_contact).onion_id
      = (cnf.cl.contact.getD i1 empty_contact).onion_id)
    (hp2 : (cnf.cl.contact.getD i2 empty_contact).lport
      = (cnf.cl.contact.getD i1 empty_contact).lport)
    (hacc : (cnf.cl.contact.getD i1 empty_contact).accepted
      = !(cnf.cl.contact.getD i2 empty_contact).accepted)
    (hexact : ∀ j, j < cnf.cl.contact.length →
      (((cnf.cl.contact.getD j empty_contact).lport ≠ 0 ∧
        contact_eq (cnf.cl.contact.getD n empty_contact)
          (cnf.cl.contact.getD j empty_contact) = true)
       ↔ (j = i1 ∨ j = i2)))
    (hne : cnf.me.onion_id ≠ (cnf.cl.contact.getD i1 empty_contact).onion_id ∨
      cnf.me.lport ≠ (cnf.cl.contact.getD i1 empty_contact).lport) :
    (cnf.cl.contact.getD (check_duplicates cnf (n : Int)).toNat empty_contact).accepted =
      (if strcmpM cnf.me.onion_id (cnf.cl.contact.getD i1 empty_contact).onion_id = 1 then false
       else if strcmpM cnf.me.onion_id (cnf.cl.contact.getD i1 empty_contact).onion_id = -1 then
        true
       else if (cnf.cl.contact.getD i1 empty_contact).lport < cnf.me.lport then false
       else true) := by
  have hcano : (cnf.cl.contact.getD n empty_contact).onion_id
      = (cnf.cl.contact.getD i1 empty_contact).onion_id := by
    rcases hn with rfl | rfl
    · rfl
    · exact ha2
  have hcanp : (cnf.cl.contact.getD n empty_contact).lport
      = (cnf.cl.contact.getD i1 empty_contact).lport := by
    rcases hn with rfl | rfl
    · rfl
    · exact hp2
  have hself : ¬ (cnf.me.lport ≠ 0 ∧
      contact_eq (cnf.cl.contact.getD n empty_contact) cnf.me = true) := by
    rintro ⟨_, he⟩
    have hf := contact_eq_fields he
    rcases hne with h | h
    · exact h (hf.1.symm.trans hcano)
    · exact h (hf.2.symm.trans hcanp)
  rw [check_duplicates_branches cnf n i1 i2 h12 h2l hexact hself, hcano]
  rcases strcmpM_vals cnf.me.onion_id (cnf.cl.contact.getD i1 empty_contact).onion_id
    with hs | hs | hs
  · rw [hs]
    rw [if_neg (show ¬ (0 : Int) < -1 by norm_num)]
    rw [if_pos (show (-1 : Int) < 0 by norm_num)]
    rw [if_neg (show ¬ (-1 : Int) = 1 by norm_num)]
    rw [if_pos (show (-1 : Int) = -1 from rfl)]
    exact flag_accept cnf i1 i2 hacc
  · have honion : cnf.me.onion_id = (cnf.cl.contact.getD i1 empty_contact).onion_id :=
      strcmpM_eq_zero _ _ hs
    have hpne : cnf.me.lport ≠ (cnf.cl.contact.getD i1 empty_contact).lport := by
      rcases hne with h | h
      · exact absurd honion h
      · exact h
    rw [hs, hcanp]
    rw [if_neg (show ¬ (0 : Int) < 0 by norm_num)]
    rw [if_neg (show ¬ (0 : Int) = 1 by norm_num)]
    rw [if_neg (show ¬ (0 : Int) = -1 by norm_num)]
    by_cases hpl : (cnf.cl.contact.getD i1 empty_contact).lport < cnf.me.lport
    · rw [if_pos hpl, if_pos hpl]
      exact flag_connect cnf i1 i2 hacc
    · rw [if_neg hpl, ite_self, if_neg hpl]
      exact flag_accept cnf i1 i2 hacc
  · rw [hs]
    rw [if_pos (show (0 : Int) < 1 by norm_num)]
    rw [if_pos (show (1 : Int) = 1 from rfl)]
    exact flag_connect cnf i1 i2 hacc

/-- C4 (amended): provided the duplicate identity differs from the own
identity (address or port), the accepted flag of the entry that
`check_duplicates` evicts is a function of the two identities alone:
(first part) any two stores presenting the same own identity and the
same duplicate identity - whatever the slot order, slot indices, or
queried index - evict the same accepted-side; (second part) a store
presenting the two identities in exchanged roles (the remote peer's
view of the same duplicate link pair, where each side's dialed link is
the other side's accepted link) evicts exactly the complementary
accepted-side, so the two peers independently agree on which physical
link survives. -/
theorem check_duplicates_agreement
    (cnfA : dchat_conf_t) (nA iA1 iA2 : Nat)
    (h12A : iA1 < iA2) (h2lA : iA2 < cnfA.cl.contact.length)
    (hnA : nA = iA1 ∨ nA = iA2)
    (ha2A : (cnfA.cl.contact.getD iA2 empty_contact).onion_id
      = (cnfA.cl.contact.getD iA1 empty_contact).onion_id)
    (hp2A : (cnfA.cl.contact.getD iA2 empty_contact).lport
      = (cnfA.cl.contact.getD iA1 empty_contact).lport)
    (haccA : (cnfA.cl.contact.getD iA1 empty_contact).accepted
      = !(cnfA.cl.contact.getD iA2 empty_contact).accepted)
    (hexactA : ∀ j, j < cnfA.cl.contact.length →
      (((cnfA.cl.contact.getD j empty_contact).lport ≠ 0 ∧
        contact_eq (cnfA.cl.contact.getD nA empty_contact)
          (cnfA.cl.contact.getD j empty_contact) = true)
       ↔ (j = iA1 ∨ j = iA2)))
    (hneA : cnfA.me.onion_id ≠ (cnfA.cl.contact.getD iA1 empty_contact).onion_id ∨
      cnfA.me.lport ≠ (cnfA.cl.contact.getD iA1 empty_contact).lport)
    (cnfB : dchat_conf_t) (nB iB1 iB2 : Nat)
    (h12B : iB1 < iB2) (h2lB : iB2 < cnfB.cl.contact.length)
    (hnB : nB = iB1 ∨ nB = iB2)
    (ha2B : (cnfB.cl.contact.getD iB2 empty_contact).onion_id
      = (cnfB.cl.contact.getD iB1 empty_contact).onion_id)
    (hp2B : (cnfB.cl.contact.getD iB2 empty_contact).lport
      = (cnfB.cl.contact.getD iB1 empty_contact).lport)
    (haccB : (cnfB.cl.contact.getD iB1 empty_contact).accepted
      = !(cnfB.cl.contact.getD iB2 empty_contact).accepted)
    (hexactB : ∀ j, j < cnfB.cl.contact.length →
      (((cnfB.cl.contact.getD j empty_contact).lport ≠ 0 ∧
        contact_eq (cnfB.cl.contact.getD nB empty_contact)
          (cnfB.cl.contact.getD j empty_contact) = true)
       ↔ (j = iB1 ∨ j = iB2))) :
    ((cnfB.me.onion_id = cnfA.me.onion_id ∧ cnfB.me.lport = cnfA.me.lport ∧
      (cnfB.cl.contact.getD iB1 empty_contact).onion_id
        = (cnfA.cl.contact.getD iA1 empty_contact).onion_id ∧
      (cnfB.cl.contact.getD iB1 empty_contact).lport
        = (cnfA.cl.contact.getD iA1 empty_contact).lport) →
      (cnfB.cl.contact.getD (check_duplicates cnfB (nB : Int)).toNat empty_contact).accepted
        = (cnfA.cl.contact.getD (check_duplicates cnfA (nA : Int)).toNat empty_contact).accepted) ∧
    ((cnfB.me.onion_id = (cnfA.cl.contact.getD iA1 empty_contact).onion_id ∧
      cnfB.me.lport = (cnfA.cl.contact.getD iA1 empty_contact).lport ∧
      (cnfB.cl.contact.getD iB1 empty_contact).onion_id = cnfA.me.onion_id ∧
      (cnfB.cl.contact.getD iB1 empty_contact).lport = cnfA.me.lport) →
      (cnfB.cl.contact.getD (check_duplicates cnfB (nB : Int)).toNat empty_contact).accepted
        = !(cnfA.cl.contact.getD (check_duplicates cnfA (nA : Int)).toNat
            empty_contact).accepted) := by
  have hFA := check_duplicates_flag cnfA nA iA1 iA2 h12A h2lA hnA ha2A hp2A haccA hexactA hneA
  constructor
  · rintro ⟨he1, he2, he3, he4⟩
    have hneB : cnfB.me.onion_id ≠ (cnfB.cl.contact.getD iB1 empty_contact).onion_id ∨
        cnfB.me.lport ≠ (cnfB.cl.contact.getD iB1 empty_contact).lport := by
      rcases hneA with h | h
      · left
        rw [he1, he3]
        exact h
      · right
        rw [he2, he4]
        exact h
    have hFB := check_duplicates_flag cnfB nB iB1 iB2 h12B h2lB hnB ha2B hp2B haccB hexactB hneB
    rw [hFA, hFB, he1, he2, he3, he4]
  · rintro ⟨he1, he2, he3, he4⟩
    have hneB : cnfB.me.onion_id ≠ (cnfB.cl.contact.getD iB1 empty_contact).onion_id ∨
        cnfB.me.lport ≠ (cnfB.cl.contact.getD iB1 empty_contact).lport := by
      rcases hneA with h | h
      · left
        rw [he1, he3]
        exact fun hx => h hx.symm
      · right
        rw [he2, he4]
        exact fun hx => h hx.symm
    have hFB := check_duplicates_flag cnfB nB iB1 iB2 h12B h2lB hnB ha2B hp2B haccB hexactB hneB
    rw [hFA, hFB, he1, he2, he3, he4]
    have hanti := strcmpM_antisym cnfA.me.onion_id
      (cnfA.cl.contact.getD iA1 empty_contact).onion_id
    rcases strcmpM_vals cnfA.me.onion_id (cnfA.cl.contact.getD iA1 empty_contact).onion_id
      with hs | hs | hs
    · rw [hs] at hanti
      rw [hanti, hs]
      rw [if_pos (show -(-1 : Int) = 1 by norm_num)]
      rw [if_neg (show ¬ (-1 : Int) = 1 by norm_num)]
      rw [if_pos (show (-1 : Int) = -1 from rfl)]
      rfl
    · have honion : cnfA.me.onion_id = (cnfA.cl.contact.getD iA1 empty_contact).onion_id :=
        strcmpM_eq_zero _ _ hs
      have hpne : cnfA.me.lport ≠ (cnfA.cl.contact.getD iA1 empty_contact).lport := by
        rcases hneA with h | h
        · exact absurd honion h
        · exact h
      rw [hs] at hanti
      rw [hanti, hs, neg_zero]
      rw [if_neg (show ¬ (0 : Int) = 1 by norm_num)]
      rw [if_neg (show ¬ (0 : Int) = 1 by norm_num)]
      rw [if_neg (show ¬ (0 : Int) = -1 by norm_num)]
      rw [if_neg (show ¬ (0 : Int) = -1 by norm_num)]
      by_cases hpl : (cnfA.cl.contact.getD iA1 empty_contact).lport < cnfA.me.lport
      · rw [if_pos hpl, if_neg (show ¬ cnfA.me.lport
          < (cnfA.cl.contact.getD iA1 empty_contact).lport by omega)]
        rfl
      · rw [if_neg hpl, if_pos (show cnfA.me.lport
          < (cnfA.cl.contact.getD iA1 empty_contact).lport by omega)]
        rfl
    · rw [hs] at hanti
      rw [hanti, hs]
      rw [if_neg (show ¬ -(1 : Int) = 1 by norm_num)]
      rw [if_pos (show -(1 : Int) = -1 by norm_num)]
      rw [if_pos (show (1 : Int) = 1 from rfl)]
      rfl

/-- Witness for C4: (first part) querying either slot of the duplicate
pair in `cnfDupAB` evicts the same accepted-side; (second part) peer A's
store `cnfDupBA` — the same two links seen from the other end — evicts
the complementary accepted-side. -/
theorem check_duplicates_agreement_witness :
    ((cnfDupAB.cl.contact.getD (check_duplicates cnfDupAB 1).toNat empty_contact).accepted
       = (cnfDupAB.cl.contact.getD (check_duplicates cnfDupAB 0).toNat empty_contact).accepted) ∧
    ((cnfDupBA.cl.contact.getD (check_duplicates cnfDupBA 0).toNat empty_contact).accepted
       = !(cnfDupAB.cl.contact.getD (check_duplicates cnfDupAB 0).toNat
            empty_contact).accepted) := by
  constructor
  · exact (check_duplicates_agreement cnfDupAB 0 0 1 (by decide) (by decide) (Or.inl rfl)
      (by decide) (by decide) (by decide) (by decide) (Or.inl (by decide))
      cnfDupAB 1 0 1 (by decide) (by decide) (Or.inr rfl)
      (by decide) (by decide) (by decide) (by decide)).1 (by decide)
  · exact (check_duplicates_agreement cnfDupAB 0 0 1 (by decide) (by decide) (Or.inl rfl)
      (by decide) (by decide) (by decide) (by decide) (Or.inl (by decide))
      cnfDupBA 0 0 1 (by decide) (by decide) (Or.inl rfl)
      (by decide) (by decide) (by decide) (by decide)).2 (by decide)

/-- C4 counterexample: two stores holding the identical duplicate pair
(identical identities and flags) for an identity that coincides with the
own identity, differing only in which entry occupies the lower slot;
`check_duplicates 0` evicts the connect side in one and the accept side
in the other, so the eviction choice is not independent of insertion
order as the claim states. -/
theorem check_duplicates_order_counterexample :
    (cnfSelfDup.cl.contact.getD (check_duplicates cnfSelfDup 0).toNat empty_contact).accepted
      = false ∧
    (cnfSelfDupSwap.cl.contact.getD (check_duplicates cnfSelfDupSwap 0).toNat
      empty_contact).accepted = true := by
  decide

/-! ## Growth and shrink hysteresis (claim C9) -/

theorem set_append_len (pre : List contact_t) (x y : contact_t) (r : List contact_t) :
    (pre ++ x :: r).set pre.length y = pre ++ y :: r := by
  induction pre with
  | nil => rfl
  | cons a t ih => simp [List.set, ih]

theorem getD_append_len (pre : List contact_t) (x : contact_t) (r : List contact_t) :
    (pre ++ x :: r).getD pre.length empty_contact = x := by
  induction pre with
  | nil => rfl
  | cons a t ih => simpa using ih

theorem firstEmptyIdx_filled (pre : List contact_t) (r : List contact_t)
    (h : ∀ c ∈ pre, c.fd ≠ 0) :
    firstEmptyIdx (pre ++ empty_contact :: r) = some pre.length := by
  induction pre with
  | nil => rfl
  | cons a t ih =>
    have ha : ¬ a.fd = 0 := h a (List.mem_cons_self a t)
    simp only [List.cons_append, firstEmptyIdx, List.append_eq]
    rw [if_neg ha, ih (fun c hc => h c (List.mem_cons_of_mem a hc))]
    rfl

theorem filter_replicate_empty (m : Nat) :
    (List.replicate m empty_contact).filter (fun c => c.fd ≠ 0) = [] := by
  induction m with
  | zero => rfl
  | succ m ih =>
    rw [List.replicate_succ]
    simp only [List.filter]
    rw [ih]
    rfl

theorem filter_all_occupied (l : List contact_t) (h : ∀ c ∈ l, c.fd ≠ 0) :
    l.filter (fun c => c.fd ≠ 0) = l :=
  List.filter_eq_self.mpr (fun c hc => decide_eq_true (h c hc))

theorem add_contact_mid (inc : Int) (me : contact_t) (pre r : List contact_t)
    (hpre : ∀ c ∈ pre, c.fd ≠ 0) (fd : Int) :
    add_contact inc
      (dchat_conf_t.mk me
        (contactlist_t.mk (pre ++ empty_contact :: r) (pre.length : Int))) fd
      = some (dchat_conf_t.mk me
          (contactlist_t.mk (pre ++ mkFd fd :: r) ((pre.length : Int) + 1)),
        (pre.length : Int)) := by
  have hgrow : ¬ ((pre.length : Int)
      = cl_size (dchat_conf_t.mk me
          (contactlist_t.mk (pre ++ empty_contact :: r) (pre.length : Int)))) := by
    simp only [cl_size, List.length_append, List.length_cons]
    omega
  simp only [add_contact]
  rw [if_neg hgrow]
  simp only [firstEmptyIdx_filled pre r hpre, getD_append_len, set_append_len]
  rfl

theorem add_contact_full (inc : Int) (hinc : 1 ≤ inc) (me : contact_t)
    (l : List contact_t) (hl : ∀ c ∈ l, c.fd ≠ 0) (fd : Int) :
    add_contact inc (dchat_conf_t.mk me (contactlist_t.mk l (l.length : Int))) fd
      = some (dchat_conf_t.mk me
          (contactlist_t.mk (l ++ mkFd fd :: List.replicate (inc.toNat - 1) empty_contact)
            ((l.length : Int) + 1)),
        (l.length : Int)) := by
  obtain ⟨m, hm⟩ : ∃ m, inc.toNat = m + 1 := ⟨inc.toNat - 1, by omega⟩
  have hre : realloc_contactlist
      (dchat_conf_t.mk me (contactlist_t.mk l (l.length : Int)))
      (cl_size (dchat_conf_t.mk me (contactlist_t.mk l (l.length : Int))) + inc)
      = some (dchat_conf_t.mk me
          (contactlist_t.mk (l ++ List.replicate (m + 1) empty_contact)
            (l.length : Int))) := by
    unfold realloc_contactlist
    rw [if_neg (by simp only [cl_size]; omega)]
    simp only [cl_size, filter_all_occupied l hl]
    have hcount : ((l.length : Int) + inc).toNat - l.length = m + 1 := by omega
    rw [hcount]
  simp only [add_contact]
  rw [if_pos (by simp only [cl_size])]
  rw [hre]
  simp only [List.replicate_succ, firstEmptyIdx_filled l (List.replicate m empty_contact) hl,
    getD_append_len, set_append_len, hm]
  rfl

theorem add_seq_fill (inc : Int) (me : contact_t) :
    ∀ (fds : List Int) (pre : List contact_t) (k : Nat),
      (∀ c ∈ pre, c.fd ≠ 0) → (∀ f ∈ fds, f ≠ 0) → fds.length ≤ k →
      add_seq inc (dchat_conf_t.mk me
          (contactlist_t.mk (pre ++ List.replicate k empty_contact) (pre.length : Int))) fds
        = some (dchat_conf_t.mk me
            (contactlist_t.mk
              ((pre ++ fds.map mkFd) ++ List.replicate (k - fds.length) empty_contact)
              ((pre.length : Int) + fds.length))) := by
  intro fds
  induction fds with
  | nil =>
    intro pre k hpre hfds hlen
    simp [add_seq]
  | cons f rest ih =>
    intro pre k hpre hfds hlen
    obtain ⟨m, rfl⟩ : ∃ m, k = m + 1 := ⟨k - 1, by
      have := hlen
      simp only [List.length_cons] at this
      omega⟩
    simp only [List.replicate_succ, add_seq,
      add_contact_mid inc me pre (List.replicate m empty_contact) hpre f]
    have hstep := ih (pre ++ [mkFd f]) m
      (by
        intro c hc
        rcases List.mem_append.mp hc with h | h
        · exact hpre c h
        · rw [List.mem_singleton.mp h]
          simpa [mkFd, empty_contact] using hfds f (List.mem_cons_self f rest))
      (fun x hx => hfds x (List.mem_cons_of_mem f hx))
      (by
        simp only [List.length_cons] at hlen
        omega)
    rw [show pre ++ mkFd f :: List.replicate m empty_contact
        = (pre ++ [mkFd f]) ++ List.replicate m empty_contact by simp]
    rw [show ((pre.length : Int) + 1) = (((pre ++ [mkFd f]).length : Int)) by simp]
    rw [hstep]
    have h1 : ((pre ++ [mkFd f]) ++ rest.map mkFd)
        ++ List.replicate (m - rest.length) empty_contact
        = (pre ++ (f :: rest).map mkFd)
          ++ List.replicate (m + 1 - (f :: rest).length) empty_contact := by
      simp [List.append_assoc, Nat.succ_sub_succ]
    have h2 : (((pre ++ [mkFd f]).length : Int)) + (rest.length : Int)
        = ((pre.length : Int)) + (((f :: rest).length : Nat) : Int) := by
      simp only [List.length_append, List.length_cons, List.length_nil]
      push_cast
      ring
    rw [h1, h2]

theorem del_contact_noshrink (inc : Int) (cnf : dchat_conf_t) (n : Int)
    (hn0 : 0 ≤ n) (hns : n < cl_size cnf)
    (hocc : ¬ (cnf.cl.contact.getD n.toNat empty_contact).fd = 0)
    (hnc : ¬ (cnf.cl.used_contacts - 1 = cl_size cnf - inc ∧
      cnf.cl.used_contacts - 1 ≠ 0)) :
    del_contact inc cnf n = some (dchat_conf_t.mk cnf.me
      (contactlist_t.mk (cnf.cl.contact.set n.toNat empty_contact)
        (cnf.cl.used_contacts - 1))) := by
  simp only [del_contact]
  rw [if_neg (by omega), if_neg hocc]
  rw [if_neg (by simpa only [cl_size, List.length_set] using hnc)]

theorem del_contact_shrink (inc : Int) (cnf : dchat_conf_t) (n : Int)
    (hn0 : 0 ≤ n) (hns : n < cl_size cnf)
    (hocc : ¬ (cnf.cl.contact.getD n.toNat empty_contact).fd = 0)
    (hcond : cnf.cl.used_contacts - 1 = cl_size cnf - inc ∧
      cnf.cl.used_contacts - 1 ≠ 0)
    (hsz : (1 : Int) ≤ cl_size cnf - inc) :
    del_contact inc cnf n = some (dchat_conf_t.mk cnf.me
      (contactlist_t.mk
        (((cnf.cl.contact.set n.toNat empty_contact).filter (fun c => c.fd ≠ 0))
          ++ List.replicate ((cl_size cnf - inc).toNat
              - ((cnf.cl.contact.set n.toNat empty_contact).filter
                  (fun c => c.fd ≠ 0)).length) empty_contact)
        (cnf.cl.used_contacts - 1))) := by
  simp only [del_contact]
  rw [if_neg (by omega), if_neg hocc]
  rw [if_pos (by
    constructor
    · simp only [cl_size, List.length_set]
      simp only [cl_size] at hcond
      exact hcond.1
    · exact hcond.2)]
  unfold realloc_contactlist
  rw [if_neg (by
    simp only [cl_size, List.length_set]
    simp only [cl_size] at hsz hcond
    omega)]
  simp only [cl_size, List.length_set]

theorem del_capacity (inc : Int) (s : dchat_conf_t) (n : Int) (s2 : dchat_conf_t)
    (hcap : cl_size s = inc) (h : del_contact inc s n = some s2) : cl_size s2 = inc := by
  simp only [del_contact] at h
  by_cases h1 : n < 0 ∨ cl_size s ≤ n
  · rw [if_pos h1] at h
    exact absurd h (by simp)
  · rw [if_neg h1] at h
    by_cases h2 : (s.cl.contact.getD n.toNat empty_contact).fd = 0
    · rw [if_pos h2] at h
      obtain rfl := Option.some_inj.mp h
      exact hcap
    · rw [if_neg h2] at h
      have hlen : ((s.cl.contact.set n.toNat empty_contact).length : Int) = inc := by
        rw [List.length_set]
        simpa only [cl_size] using hcap
      by_cases h3 : s.cl.used_contacts - 1
          = cl_size (dchat_conf_t.mk s.me
              (contactlist_t.mk (s.cl.contact.set n.toNat empty_contact)
                (s.cl.used_contacts - 1))) - inc ∧
          s.cl.used_contacts - 1 ≠ 0
      · exfalso
        simp only [cl_size] at h3
        omega
      · rw [if_neg h3] at h
        obtain rfl := Option.some_inj.mp h
        simpa only [cl_size, List.length_set] using hcap

/-- C9: starting from an empty store whose capacity is the increment
`K`, the first `K` adds keep capacity `K` (no growth), the `(K+1)`-th
add grows the capacity exactly once, to `2K`; removing one contact (back
to `K` in use) shrinks exactly once, back to capacity `K`; removing one
further contact does not shrink, and in fact no removal at capacity `K`
can ever shrink again (the hysteresis condition `used = capacity -
increment ∧ used ≠ 0` is unsatisfiable there), so the capacity stays `K`
all the way down to usage 0. -/
theorem growth_shrink_hysteresis (K : Nat) (hK : 1 ≤ K) (me : contact_t)
    (fds : List Int) (hlen : fds.length = K) (hfds : ∀ f ∈ fds, f ≠ 0)
    (g : Int) (hg : g ≠ 0) :
    (∀ j, j ≤ K → ∃ s, add_seq (K : Int) (fresh_store K me) (fds.take j) = some s ∧
      cl_size s = (K : Int) ∧ s.cl.used_contacts = (j : Int)) ∧
    ∃ sK, add_seq (K : Int) (fresh_store K me) fds = some sK ∧
      cl_size sK = (K : Int) ∧ sK.cl.used_contacts = (K : Int) ∧
      ∃ sK1 i, add_contact (K : Int) sK g = some (sK1, i) ∧
        cl_size sK1 = ((2 * K : Nat) : Int) ∧ sK1.cl.used_contacts = (K : Int) + 1 ∧
        ∃ t1, del_contact (K : Int) sK1 0 = some t1 ∧
          cl_size t1 = (K : Int) ∧ t1.cl.used_contacts = (K : Int) ∧
          ∃ t2, del_contact (K : Int) t1 0 = some t2 ∧
            cl_size t2 = (K : Int) ∧ t2.cl.used_contacts = (K : Int) - 1 ∧
            (∀ s n s2, cl_size s = (K : Int) →
              del_contact (K : Int) s n = some s2 → cl_size s2 = (K : Int)) := by
  have hmapne : ∀ c ∈ fds.map mkFd, c.fd ≠ 0 := by
    intro c hc
    obtain ⟨f, hf, rfl⟩ := List.mem_map.mp hc
    simpa [mkFd, empty_contact] using hfds f hf
  constructor
  · intro j hj
    have hlt : (fds.take j).length = j := by
      rw [List.length_take]
      omega
    have h0 := add_seq_fill (K : Int) me (fds.take j) [] K
      (by intro c hc; simp at hc)
      (fun f hf => hfds f (List.mem_of_mem_take hf))
      (by omega)
    simp only [List.nil_append, List.length_nil, Nat.cast_zero, zero_add, hlt] at h0
    refine ⟨dchat_conf_t.mk me (contactlist_t.mk
        ((fds.take j).map mkFd ++ List.replicate (K - j) empty_contact) (j : Int)),
      ?_, ?_, rfl⟩
    · simpa only [fresh_store] using h0
    · simp only [cl_size, List.length_append, List.length_map, List.length_replicate, hlt]
      push_cast
      omega
  · have hfull := add_seq_fill (K : Int) me fds [] K
      (by intro c hc; simp at hc) hfds (by omega)
    simp only [List.nil_append, List.length_nil, Nat.cast_zero, zero_add, hlen,
      Nat.sub_self, List.replicate_zero, List.append_nil] at hfull
    refine ⟨dchat_conf_t.mk me (contactlist_t.mk (fds.map mkFd) (K : Int)), ?_, ?_, rfl, ?_⟩
    · simpa only [fresh_store] using hfull
    · simp only [cl_size, List.length_map, hlen]
    · -- the (K+1)-th add grows once, to 2K
      have hKi : (1 : Int) ≤ (K : Int) := by omega
      have hadd := add_contact_full (K : Int) hKi me (fds.map mkFd) hmapne g
      have hmlen : ((fds.map mkFd).length : Int) = (K : Int) := by
        rw [List.length_map, hlen]
      rw [hmlen] at hadd
      have htK : ((K : Int)).toNat = K := by omega
      rw [htK] at hadd
      refine ⟨_, _, hadd, ?_, rfl, ?_⟩
      · simp only [cl_size, List.length_append, List.length_cons, List.length_map,
          List.length_replicate, hlen]
        push_cast
        omega
      · -- one removal shrinks back to capacity K
        obtain ⟨f0, rest, rfl⟩ : ∃ f0 rest, fds = f0 :: rest := by
          cases fds with
          | nil => simp at hlen; omega
          | cons a t => exact ⟨a, t, rfl⟩
        have hrest : rest.length = K - 1 := by
          simp only [List.length_cons] at hlen
          omega
        have hcl1 : cl_size (dchat_conf_t.mk me
            (contactlist_t.mk ((f0 :: rest).map mkFd
                ++ mkFd g :: List.replicate (K - 1) empty_contact) ((K : Int) + 1)))
            = ((2 * K : Nat) : Int) := by
          simp only [cl_size, List.length_append, List.length_cons, List.length_map,
            List.length_replicate, hrest]
          push_cast
          omega
        have hset : ((f0 :: rest).map mkFd
              ++ mkFd g :: List.replicate (K - 1) empty_contact).set 0 empty_contact
            = empty_contact :: (rest.map mkFd
              ++ mkFd g :: List.replicate (K - 1) empty_contact) := by
          simp [List.set]
        have hfil : (((f0 :: rest).map mkFd
              ++ mkFd g :: List.replicate (K - 1) empty_contact).set 0
                empty_contact).filter (fun c => c.fd ≠ 0)
            = rest.map mkFd ++ [mkFd g] := by
          rw [hset]
          rw [List.filter_cons_of_neg (by simp [empty_contact])]
          rw [List.filter_append]
          rw [filter_all_occupied (rest.map mkFd)
            (fun c hc => hmapne c (by
              rw [List.map_cons]
              exact List.mem_cons_of_mem _ hc))]
          rw [List.filter_cons_of_pos (by simp [mkFd, empty_contact, hg])]
          rw [filter_replicate_empty (K - 1)]
        have hdel1 := del_contact_shrink (K : Int)
          (dchat_conf_t.mk me (contactlist_t.mk ((f0 :: rest).map mkFd
            ++ mkFd g :: List.replicate (K - 1) empty_contact) ((K : Int) + 1))) 0
          (by omega) (by rw [hcl1]; push_cast; omega)
          (by
            show ¬ (((f0 :: rest).map mkFd
              ++ mkFd g :: List.replicate (K - 1) empty_contact).getD
                ((0 : Int)).toNat empty_contact).fd = 0
            simp only [List.map, List.cons_append, Int.toNat_zero, List.getD_cons_zero]
            simpa [mkFd, empty_contact] using hfds f0 (List.mem_cons_self f0 rest))
          (by
            constructor
            · show (K : Int) + 1 - 1 = cl_size _ - (K : Int)
              rw [hcl1]
              push_cast
              omega
            · show (K : Int) + 1 - 1 ≠ 0
              omega)
          (by rw [hcl1]; push_cast; omega)
        rw [hcl1] at hdel1
        simp only [Int.toNat_zero] at hdel1
        rw [hfil] at hdel1
        have hflen : (rest.map mkFd ++ [mkFd g]).length = K := by
          simp only [List.length_append, List.length_cons, List.length_map,
            List.length_nil, hrest]
          omega
        have hcount : (((2 * K : Nat) : Int) - (K : Int)).toNat
            - (rest.map mkFd ++ [mkFd g]).length = 0 := by
          rw [hflen]
          omega
        rw [hcount, List.replicate_zero, List.append_nil] at hdel1
        refine ⟨_, hdel1, ?_, ?_, ?_⟩
        · show (((rest.map mkFd ++ [mkFd g]).length : Nat) : Int) = (K : Int)
          rw [hflen]
        · show (K : Int) + 1 - 1 = (K : Int)
          omega
        · -- one further removal does not shrink
          have hocc2 : ¬ ((rest.map mkFd ++ [mkFd g]).getD (0 : Int).toNat
              empty_contact).fd = 0 := by
            cases rest with
            | nil =>
              simpa [mkFd, empty_contact] using hg
            | cons r0 rr =>
              simp only [List.map, List.cons_append, Int.toNat_zero, List.getD_cons_zero]
              simpa [mkFd, empty_contact] using
                hfds r0 (List.mem_cons_of_mem f0 (List.mem_cons_self r0 rr))
          have hdel2 := del_contact_noshrink (K : Int)
            (dchat_conf_t.mk me (contactlist_t.mk (rest.map mkFd ++ [mkFd g])
              ((K : Int) + 1 - 1))) 0
            (by omega)
            (by
              show (0 : Int) < (((rest.map mkFd ++ [mkFd g]).length : Nat) : Int)
              rw [hflen]
              omega)
            hocc2
            (by
              rintro ⟨h1, h2⟩
              have h1x : (K : Int) + 1 - 1 - 1
                  = (((rest.map mkFd ++ [mkFd g]).length : Nat) : Int) - (K : Int) := h1
              have h2x : (K : Int) + 1 - 1 - 1 ≠ 0 := h2
              rw [hflen] at h1x
              omega)
          refine ⟨_, hdel2, ?_, ?_, ?_⟩
          · show ((((rest.map mkFd ++ [mkFd g]).set ((0 : Int)).toNat
                empty_contact).length : Nat) : Int) = (K : Int)
            rw [List.length_set, hflen]
          · show (K : Int) + 1 - 1 - 1 = (K : Int) - 1
            omega
          · intro s n s2 hc hd
            exact del_capacity (K : Int) s n s2 hc hd

/-- Witness for C9: the scenario at increment 1, one initial contact
(descriptor 5) and one further contact (descriptor 6). -/
theorem growth_shrink_hysteresis_witness :
    ∃ sK, add_seq 1 (fresh_store 1 empty_contact) [5] = some sK ∧
      cl_size sK = 1 ∧ sK.cl.used_contacts = 1 ∧
      ∃ sK1 i, add_contact 1 sK 6 = some (sK1, i) ∧
        cl_size sK1 = ((2 * 1 : Nat) : Int) ∧ sK1.cl.used_contacts = 1 + 1 ∧
        ∃ t1, del_contact 1 sK1 0 = some t1 ∧
          cl_size t1 = 1 ∧ t1.cl.used_contacts = 1 ∧
          ∃ t2, del_contact 1 t1 0 = some t2 ∧
            cl_size t2 = 1 ∧ t2.cl.used_contacts = 1 - 1 ∧
            (∀ s n s2, cl_size s = 1 → del_contact 1 s n = some s2 → cl_size s2 = 1) :=
  (growth_shrink_hysteresis 1 (by norm_num) empty_contact [5] (by decide) (by decide) 6
    (by decide)).2

/-! ## receive_contacts on a malformed line (claim C10) -/

/-- C10, evaluated at the failing input: on a message whose first line
(`x`) fails to decode, `receive_contacts` never terminates, whatever the
store, the connection collaborator or the fuel: the `continue` after a
decode failure skips the `line_end++`, so every later iteration
re-extracts the single-character line at the failed line's newline
offset (which again fails to decode) and the offset never advances.
The well-formed second line of the message is never processed.  The
claim - and the code's own log message, which says the bad line is
skipped - require the loop to continue with the next line instead. -/
theorem receive_contacts_nonterminating (cnf : dchat_conf_t)
    (conn : List Char → Int → Int) :
    ∀ fuel, receive_contacts cnf conn contentBad fuel = none := by
  have hlen1 : (1 : Nat) < contentBad.length := by decide
  have hgc1 : get_content_part contentBad 1 '\n' = some (['\n'], 1) := by decide
  have hsc1 : string_to_contact empty_contact ['\n'] = none := by decide
  have hstuck : ∀ fuel ret nc kc, receive_loop cnf conn contentBad fuel 1 ret nc kc = none := by
    intro fuel
    induction fuel with
    | zero =>
      intro ret nc kc
      rfl
    | succ fuel ih =>
      intro ret nc kc
      simp only [receive_loop, hgc1, hsc1, if_pos hlen1]
      exact ih (-1) nc kc
  intro fuel
  cases fuel with
  | zero => rfl
  | succ fuel =>
    have hlen0 : (0 : Nat) < contentBad.length := by decide
    have hgc0 : get_content_part contentBad 0 '\n' = some (['x', '\n'], 1) := by decide
    have hsc0 : string_to_contact empty_contact ['x', '\n'] = none := by decide
    simp only [receive_contacts, receive_loop, hgc0, hsc0, if_pos hlen0]
    exact hstuck fuel (-1) 0 0

/-- The loop model does terminate on well-formed input: on a two-line
body received into an empty store it processes both lines, requests two
connections and returns the new-contact count 2 (the discovery exchange
scenario of the specification). -/
theorem receive_contacts_two_lines :
    receive_contacts
      (dchat_conf_t.mk empty_contact (contactlist_t.mk [] 0))
      (fun _ _ => 0) contentTwo 3 = some 2 := by
  decide

end DChat
